import Mathlib

/-!
# Verification of the pharma orchestration core

A shallow embedding of the orchestration core of the `pharma` repository
(`src/services/guardrails.py`, `intent_classifier.py`, `rate_limiter.py`,
`orchestrator.py`) together with proofs settling the frozen claims about it.

Text is modelled as `List Char`.  Python's `re` module is modelled by a
small backtracking engine (`RE`, `matchRE`, `reSearch`, `reSub`) that
reproduces Python's leftmost-match, greedy-with-backtracking semantics for
the regular-expression constructs the source actually uses: character
classes, bounded and unbounded greedy repetition of a class, literals
(optionally case-insensitive), alternation (left preferred), concatenation
and the zero-width word-boundary assertion `\b`.  Inputs are treated as
ASCII-range text, so `\w` is `[A-Za-z0-9_]`.
-/

namespace Pharma

/-- Characters Python's `str.split` treats as whitespace (ASCII range). -/
def isPyWs (c : Char) : Bool :=
  c = ' ' ∨ c = '\t' ∨ c = '\n' ∨ c = '\r' ∨ c = '\x0b' ∨ c = '\x0c'

/-- Python regex `\w` over ASCII text. -/
def isWordChar (c : Char) : Bool :=
  ('a' ≤ c ∧ c ≤ 'z') ∨ ('A' ≤ c ∧ c ≤ 'Z') ∨ ('0' ≤ c ∧ c ≤ '9') ∨ c = '_'

def isDigit (c : Char) : Bool := '0' ≤ c ∧ c ≤ '9'

def lowerC (c : Char) : Char := c.toLower

def lowerS (s : List Char) : List Char := s.map lowerC

def upperS (s : List Char) : List Char := s.map Char.toUpper

/-- `str` converts a Lean string literal to the `List Char` text model. -/
def str (s : String) : List Char := s.toList

/-- Does `hay` start with `needle`? -/
def startsWith : List Char → List Char → Bool
  | [], _ => true
  | _ :: _, [] => false
  | n :: ns, h :: hs => n == h && startsWith ns hs

/-- Is `needle` a contiguous substring of `hay` (Python's `in`)? -/
def containsSub (needle hay : List Char) : Bool :=
  match hay with
  | [] => startsWith needle []
  | _ :: hs => startsWith needle hay || containsSub needle hs

/-- Strip leading and trailing Python whitespace (`str.strip`). -/
def strip (s : List Char) : List Char :=
  ((s.dropWhile isPyWs).reverse.dropWhile isPyWs).reverse

/-- Helper for `splitWs`: `acc` is the current word, reversed. -/
def splitWsAux : List Char → List Char → List (List Char)
  | [], acc => if acc = [] then [] else [acc.reverse]
  | c :: rest, acc =>
    if isPyWs c then
      if acc = [] then splitWsAux rest []
      else acc.reverse :: splitWsAux rest []
    else splitWsAux rest (c :: acc)

/-- `str.split()` with no argument: split on whitespace runs, no empties. -/
def splitWs (s : List Char) : List (List Char) := splitWsAux s []

/-- `" ".join(words)`. -/
def joinSpace : List (List Char) → List Char
  | [] => []
  | [w] => w
  | w :: ws => w ++ ' ' :: joinSpace ws

/-- `" ".join(q.split())`: whitespace normalisation from `validate_input`. -/
def normalizeWs (s : List Char) : List Char := joinSpace (splitWs s)

/-! ## A tiny regex engine with Python `re` semantics

`matchRE re prev s` returns the lengths of all prefixes of `s` that the
expression can consume, in Python's backtracking preference order (greedy
repetitions longest first, alternation left branch first, concatenation
lexicographic).  `prev` is the character just before the current position,
used by the word-boundary assertion. -/

inductive RE where
  /-- a single character satisfying the class -/
  | one : (Char → Bool) → RE
  /-- greedy `p{n,}` over a character class -/
  | runGE : (Char → Bool) → Nat → RE
  /-- greedy `p{lo,hi}` over a character class -/
  | runBB : (Char → Bool) → Nat → Nat → RE
  /-- a literal string, optionally case-insensitive -/
  | lits : Bool → List Char → RE
  /-- the zero-width assertion `\b` -/
  | wordB : RE
  | seq : RE → RE → RE
  | alt : RE → RE → RE
  | eps : RE

/-- Word-character test of the optional character at a boundary. -/
def isWordO : Option Char → Bool
  | none => false
  | some c => isWordChar c

/-- Length of the longest prefix of `s` all of whose characters satisfy `p`. -/
def runLen (p : Char → Bool) (s : List Char) : Nat := (s.takeWhile p).length

/-- Candidate lengths `hi, hi-1, ..., lo` (empty if `hi < lo`). -/
def descRange (lo hi : Nat) : List Nat :=
  (List.range (hi + 1 - lo)).map (fun i => hi - i)

/-- Case-insensitive-capable literal match: does `s` start with `l`? -/
def litsMatch (ci : Bool) (l s : List Char) : Bool :=
  match l, s with
  | [], _ => true
  | _ :: _, [] => false
  | a :: l', b :: s' =>
    (if ci then lowerC a == lowerC b else a == b) && litsMatch ci l' s'

/-- The character at offset `k - 1`, used to recompute `prev` after
consuming `k` characters. -/
def prevAfter (prev : Option Char) (s : List Char) (k : Nat) : Option Char :=
  if k = 0 then prev else (s.drop (k - 1)).head?

def matchRE : RE → Option Char → List Char → List Nat
  | .one p, _, s =>
    match s with
    | [] => []
    | c :: _ => if p c then [1] else []
  | .runGE p n, _, s =>
    let m := runLen p s
    if n ≤ m then descRange n m else []
  | .runBB p lo hi, _, s =>
    let m := min (runLen p s) hi
    if lo ≤ m then descRange lo m else []
  | .lits ci l, _, s => if litsMatch ci l s then [l.length] else []
  | .wordB, prev, s => if isWordO prev ≠ isWordO s.head? then [0] else []
  | .seq a b, prev, s =>
    (matchRE a prev s).flatMap fun k =>
      (matchRE b (prevAfter prev s k) (s.drop k)).map (k + ·)
  | .alt a b, prev, s => matchRE a prev s ++ matchRE b prev s
  | .eps, _, _ => [0]

/-- First (preferred) match length at the current position. -/
def matchHere (re : RE) (prev : Option Char) (s : List Char) : Option Nat :=
  (matchRE re prev s).head?

/-- Leftmost match: scan forward, Python `re.search`.  Returns the offset
of the match start and its length. -/
def findFrom (re : RE) (prev : Option Char) (s : List Char) (pos : Nat) :
    Option (Nat × Nat) :=
  match s with
  | [] =>
    match matchHere re prev [] with
    | some k => some (pos, k)
    | none => none
  | c :: rest =>
    match matchHere re prev s with
    | some k => some (pos, k)
    | none => findFrom re (some c) rest (pos + 1)

/-- Python `re.search(...) is not None`. -/
def reSearch (re : RE) (s : List Char) : Bool := (findFrom re none s 0).isSome

/-- Python `re.sub(re, repl, s)` for patterns that never match empty
(every pattern in the source consumes at least one character; a
zero-length match is treated as no match, which also gives termination). -/
def reSubAux (re : RE) (repl : List Char) (prev : Option Char)
    (s : List Char) : List Char :=
  match s with
  | [] => []
  | c :: rest =>
    match matchHere re prev (c :: rest) with
    | some (k + 1) =>
      repl ++ reSubAux re repl (prevAfter prev (c :: rest) (k + 1)) (rest.drop k)
    | _ => c :: reSubAux re repl (some c) rest
  termination_by s.length
  decreasing_by
    all_goals simp [List.length_drop]
    omega

def reSub (re : RE) (repl s : List Char) : List Char := reSubAux re repl none s

/-- Fuel-indexed version of `reSubAux` (structural recursion, so that
concrete substitutions evaluate); agrees with `reSubAux` whenever the
fuel bounds the text length. -/
def reSubFuel (re : RE) (repl : List Char) :
    Nat → Option Char → List Char → List Char
  | 0, _, s => s
  | fuel + 1, prev, s =>
    match s with
    | [] => []
    | c :: rest =>
      match matchHere re prev (c :: rest) with
      | some (k + 1) =>
        repl ++ reSubFuel re repl fuel (prevAfter prev (c :: rest) (k + 1))
          (rest.drop k)
      | _ => c :: reSubFuel re repl fuel (some c) rest

/-! ## Pattern vocabulary of `guardrails.py`

The blocked and sensitive patterns are applied to the lower-cased text
(`query_lower`), so their literals are lower-case and case-sensitive; the
PII, injection and dosage patterns run on mixed-case text with
`re.IGNORECASE`, so their literals are case-insensitive and their classes
closed under case. -/

/-- `.` in a Python regex (anything but a newline). -/
def dotC (c : Char) : Bool := c ≠ '\n'

/-- greedy `.*` -/
def dotStar : RE := .runGE dotC 0

/-- shorthand: case-sensitive literal -/
def lit (s : String) : RE := .lits false s.toList

/-- shorthand: case-insensitive literal -/
def litCI (s : String) : RE := .lits true s.toList

/-- shorthand: n-fold repetition of a class -/
def rep (p : Char → Bool) (n : Nat) : RE := .runBB p n n

/-- shorthand: optional single character of a class -/
def optC (p : Char → Bool) : RE := .runBB p 0 1

def seqL : List RE → RE
  | [] => .eps
  | [r] => r
  | r :: rs => .seq r (seqL rs)

def altL : List RE → RE
  | [] => .eps
  | [r] => r
  | r :: rs => .alt r (altL rs)

/-- `BLOCKED_PATTERNS` from `GuardrailsService` (matched on lower-cased
text).  Note pattern 3 and 6 have top-level alternations: in pattern 6
the branches are `\bfake`, `counterfeit` and `forge\b.*\b(...)`. -/
def blockedREs : List RE :=
  [ seqL [.wordB, altL [lit "synthesiz", lit "manufactur", lit "make",
      lit "creat", lit "produc"], .wordB, dotStar,
      altL [lit "drug", lit "narcotic", lit "controlled substance"]],
    seqL [.wordB, altL [lit "illegal", lit "illicit"], .wordB, dotStar,
      .wordB, altL [lit "drug", lit "substance"]],
    seqL [.wordB, lit "how to ", altL [lit "make", lit "create",
      lit "synthesize"], .wordB],
    seqL [.wordB, altL [lit "suicide",
      seqL [lit "self", optC dotC, lit "harm"], lit "overdose"], .wordB,
      dotStar, .wordB, altL [lit "method", lit "how", lit "way"]],
    seqL [.wordB, lit "purchase", dotStar,
      altL [lit "prescription", lit "controlled"], .wordB, dotStar,
      lit "without"],
    altL [.seq .wordB (lit "fake"), lit "counterfeit",
      seqL [lit "forge", .wordB, dotStar, .wordB,
        altL [lit "prescription", lit "medication"]]] ]

/-- `SENSITIVE_PATTERNS` (matched on lower-cased text). -/
def sensitiveREs : List RE :=
  [ seqL [.wordB, altL [seqL [lit "off", optC dotC, lit "label"],
      lit "unapproved"], .wordB, dotStar, lit "use"],
    seqL [.wordB, lit "experimental", .wordB, dotStar, lit "treatment"],
    altL [.seq .wordB (lit "controlled substance"),
      seqL [lit "schedule ", .runGE (fun c => c = 'i' ∨ c = 'v') 1, .wordB]],
    altL [.seq .wordB (lit "adverse event"), lit "side effect",
      seqL [lit "death", .wordB]],
    altL [.seq .wordB (lit "recall"), lit "warning letter",
      seqL [lit "fda action", .wordB]] ]

/-- `[A-Za-z0-9._%+-]` -/
def emailLocalC (c : Char) : Bool :=
  c.isAlpha ∨ isDigit c ∨ c = '.' ∨ c = '_' ∨ c = '%' ∨ c = '+' ∨ c = '-'

/-- `[A-Za-z0-9.-]` -/
def emailDomC (c : Char) : Bool := c.isAlpha ∨ isDigit c ∨ c = '.' ∨ c = '-'

/-- `[A-Z|a-z]` (the source's class literally contains `|`). -/
def emailTldC (c : Char) : Bool := c.isAlpha ∨ c = '|'

/-- `[-.\s]` -/
def phoneSepC (c : Char) : Bool := c = '-' ∨ c = '.' ∨ isPyWs c

/-- `[\s:#]` -/
def patientSepC (c : Char) : Bool := isPyWs c ∨ c = ':' ∨ c = '#'

/-- `PII_PATTERNS['email']`: `\b[A-Za-z0-9._%+-]+@[A-Za-z0-9.-]+\.[A-Z|a-z]{2,}\b` -/
def emailRE : RE :=
  seqL [.wordB, .runGE emailLocalC 1, lit "@", .runGE emailDomC 1,
    lit ".", .runGE emailTldC 2, .wordB]

/-- `PII_PATTERNS['phone']`:
`\b(\+\d{1,3}[-.\s]?)?\(?\d{3}\)?[-.\s]?\d{3}[-.\s]?\d{4}\b` -/
def phoneRE : RE :=
  seqL [.wordB,
    .alt (seqL [lit "+", .runBB isDigit 1 3, optC phoneSepC]) .eps,
    optC (fun c => c = '('), rep isDigit 3, optC (fun c => c = ')'),
    optC phoneSepC, rep isDigit 3, optC phoneSepC, rep isDigit 4, .wordB]

/-- `PII_PATTERNS['ssn']`: `\b\d{3}-\d{2}-\d{4}\b` -/
def ssnRE : RE :=
  seqL [.wordB, rep isDigit 3, lit "-", rep isDigit 2, lit "-",
    rep isDigit 4, .wordB]

/-- `PII_PATTERNS['credit_card']`: `\b(?:\d{4}[-\s]?){3}\d{4}\b` -/
def creditCardRE : RE :=
  seqL [.wordB,
    rep isDigit 4, optC (fun c => c = '-' ∨ isPyWs c),
    rep isDigit 4, optC (fun c => c = '-' ∨ isPyWs c),
    rep isDigit 4, optC (fun c => c = '-' ∨ isPyWs c),
    rep isDigit 4, .wordB]

/-- `PII_PATTERNS['patient_id']`: `\b(patient|mrn|medical record)[\s:#]*\d+\b`
(applied with `re.IGNORECASE`). -/
def patientIdRE : RE :=
  seqL [.wordB, altL [litCI "patient", litCI "mrn", litCI "medical record"],
    .runGE patientSepC 0, .runGE isDigit 1, .wordB]

/-- The PII table in source order, with the redaction tag names. -/
def piiPatterns : List (String × RE) :=
  [("email", emailRE), ("phone", phoneRE), ("ssn", ssnRE),
   ("credit_card", creditCardRE), ("patient_id", patientIdRE)]

/-- The injection patterns of `validate_input` (with `re.IGNORECASE`). -/
def injectionREs : List RE :=
  [ litCI "<script", litCI "javascript:",
    seqL [litCI "\x7b\x7b", dotStar, litCI "\x7d\x7d"],
    seqL [litCI "$\x7b", dotStar, litCI "\x7d"],
    litCI "<!--", litCI "-->" ]

/-- The dosage patterns of `validate_output` (with `re.IGNORECASE`). -/
def dosageREs : List RE :=
  [ seqL [.wordB, .runGE isDigit 1, .runGE isPyWs 0,
      altL [litCI "mg", litCI "mcg", litCI "ml", litCI "g"], .wordB],
    seqL [.wordB, altL [litCI "take", litCI "administer", litCI "dose",
      litCI "dosage"], .wordB],
    seqL [.wordB, litCI "treatment", .runGE isPyWs 1, litCI "recommend"] ]

/-! ## `guardrails.py`: `GuardrailsService` and `ContentModerator` -/

inductive RiskLevel where
  | safe | low | medium | high | blocked
  deriving DecidableEq, Repr

/-- `ValidationResult` dataclass. -/
structure ValidationResult where
  is_valid : Bool
  risk_level : RiskLevel
  message : List Char
  sanitized_input : List Char
  flags : List String
  deriving DecidableEq, Repr

def MAX_QUERY_LENGTH : Nat := 2000
def MIN_QUERY_LENGTH : Nat := 3

/-- The PII loop of `validate_input`: scan patterns in table order; each
match is redacted with `[REDACTED_<TYPE>]` and its type recorded. -/
def piiFold : List (String × RE) → List Char → List String →
    List Char × List String
  | [], san, found => (san, found)
  | (name, re) :: rest, san, found =>
    if reSearch re san then
      piiFold rest
        (reSub re (str "[REDACTED_" ++ upperS (str name) ++ str "]") san)
        (found ++ [name])
    else piiFold rest san found

/-- The injection loop of `validate_input`: each match appends a flag,
strips the match and sets risk to high. -/
def injFold : List RE → List Char × List String × RiskLevel →
    List Char × List String × RiskLevel
  | [], st => st
  | re :: rest, (san, fl, rk) =>
    if reSearch re san then
      injFold rest (reSub re [] san, fl ++ ["injection_attempt"], .high)
    else injFold rest (san, fl, rk)

def blockedMessage : List Char :=
  str "I cannot assist with this type of request. Please ask about legitimate pharmaceutical business intelligence topics."

/-- `GuardrailsService.validate_input`. -/
def validateInput (query : List Char) : ValidationResult :=
  if query = [] ∨ strip query = [] then
    ⟨false, .blocked, str "Please enter a query.", [], ["empty_input"]⟩
  else
    let sanitized0 := normalizeWs query
    if sanitized0.length < MIN_QUERY_LENGTH then
      ⟨false, .blocked, str "Query is too short. Please be more specific.",
        sanitized0, ["too_short"]⟩
    else
      let truncated := MAX_QUERY_LENGTH < sanitized0.length
      let flags0 : List String := if truncated then ["truncated"] else []
      let sanitized1 :=
        if truncated then sanitized0.take MAX_QUERY_LENGTH else sanitized0
      let risk0 := if truncated then RiskLevel.low else RiskLevel.safe
      let ql := lowerS sanitized1
      if blockedREs.any (fun re => reSearch re ql) then
        ⟨false, .blocked, blockedMessage, [], ["blocked_content"]⟩
      else
        let sensCount := (sensitiveREs.filter (fun re => reSearch re ql)).length
        let flags1 := flags0 ++ List.replicate sensCount "sensitive_content"
        let risk1 :=
          if 0 < sensCount ∧ risk0 = .safe then RiskLevel.medium else risk0
        let (sanitized2, piiFound) := piiFold piiPatterns sanitized1 []
        let flags2 := flags1 ++ piiFound.map (fun p => "pii_" ++ p)
        let risk2 :=
          if piiFound ≠ [] ∧ (risk1 = .safe ∨ risk1 = .low) then
            RiskLevel.medium
          else risk1
        let (sanitized3, flags3, risk3) :=
          injFold injectionREs (sanitized2, flags2, risk2)
        let message0 := str "Query validated successfully."
        let message1 :=
          if flags3.contains "sensitive_content" then
            str "Note: This query involves sensitive topics. Responses will include appropriate disclaimers."
          else message0
        let message2 :=
          if flags3.any (fun f => startsWith (str "pii_") (str f)) then
            str "Personal information has been redacted for privacy."
          else message1
        ⟨true, risk3, message2, sanitized3, flags3⟩

/-- The PII loop of `validate_output` (redaction tag is just `[REDACTED]`). -/
def outPiiFold : List (String × RE) → List Char → List String →
    List Char × List String
  | [], t, fl => (t, fl)
  | (name, re) :: rest, t, fl =>
    if reSearch re t then
      outPiiFold rest (reSub re (str "[REDACTED]") t)
        (fl ++ ["output_pii_" ++ name])
    else outPiiFold rest t fl

def disclaimerText : List Char :=
  str "\n\n---\n*⚕️ Disclaimer: This information is for business intelligence purposes only. Always consult healthcare professionals for medical advice.*"

/-- `GuardrailsService.validate_output`. -/
def validateOutput (response : List Char) : List Char × List String :=
  let (filtered, flags) := outPiiFold piiPatterns response []
  let needsDisclaimer := dosageREs.any (fun re => reSearch re filtered)
  if needsDisclaimer ∧ ¬ containsSub (str "DISCLAIMER") (upperS filtered) then
    (filtered ++ disclaimerText, flags ++ ["disclaimer_added"])
  else (filtered, flags)

def SENSITIVE_THERAPY_AREAS : List String :=
  ["oncology", "mental health", "pediatric", "reproductive",
   "addiction", "hiv", "aids", "terminal"]

def offLabelWarning : List Char :=
  str "⚠️ *Off-label use discussions are for informational purposes. Prescribing decisions should be made by licensed healthcare providers.*"

def seriousConditionWarning : List Char :=
  str "💙 *This topic involves serious health conditions. Information provided is for business analysis only.*"

def mentalHealthWarning : List Char :=
  str "💚 *Mental health is important. This analysis is for business purposes only.*"

def joinNl : List (List Char) → List Char
  | [] => []
  | [w] => w
  | w :: ws => w ++ '\n' :: joinNl ws

/-- `ContentModerator.add_context_warnings`.  The area loop breaks at the
first area found in the query, adding a warning only for oncology,
terminal and mental health. -/
def addContextWarnings (response query : List Char) : List Char :=
  let ql := lowerS query
  let offLabel :=
    if containsSub (str "off-label") ql ∨ containsSub (str "off label") ql
    then [offLabelWarning] else []
  let areaWarn :=
    match SENSITIVE_THERAPY_AREAS.find? (fun a => containsSub (str a) ql) with
    | some a =>
      if a = "oncology" ∨ a = "terminal" then [seriousConditionWarning]
      else if a = "mental health" then [mentalHealthWarning]
      else []
    | none => []
  let warnings := offLabel ++ areaWarn
  if warnings = [] then response
  else response ++ str "\n\n---\n" ++ joinNl warnings

/-! ## `intent_classifier.py`

`AgentType`, `IntentResult`, the rule-based pass, entity extraction, the
LLM fallback and the default classification.  The Groq chat call and the
JSON decoding of its response are external effects: they are abstracted
as an environment outcome (`LLMOutcome`), distinguishing a call-level
exception (escapes to `classify`'s handler) from a parse failure (caught
inside `_llm_classify`, which then returns the default classification).
`float` confidences are modelled as exact rationals; the only comparison
performed on them (`>= 0.9` against the literals 0.85/0.90/0.95) agrees
with IEEE doubles. -/

inductive AgentType where
  | market | patent | clinical | patient | competitor | trade
  | internal | web | general
  deriving DecidableEq, Repr

/-- `AgentType.value` (the enum's string value). -/
def AgentType.value : AgentType → String
  | .market => "market"
  | .patent => "patent"
  | .clinical => "clinical"
  | .patient => "patient"
  | .competitor => "competitor"
  | .trade => "trade"
  | .internal => "internal"
  | .web => "web"
  | .general => "general"

/-- `agent_type.value.title()`. -/
def AgentType.titleName : AgentType → String
  | .market => "Market"
  | .patent => "Patent"
  | .clinical => "Clinical"
  | .patient => "Patient"
  | .competitor => "Competitor"
  | .trade => "Trade"
  | .internal => "Internal"
  | .web => "Web"
  | .general => "General"

/-- `IntentResult` dataclass.  Entities are the string-valued dictionary
produced by `_extract_entities` (keys `molecule`, `therapy_area`,
`region`) or supplied by the parsed LLM response. -/
structure IntentResult where
  primary_intent : String
  agents_needed : List AgentType
  confidence : ℚ
  entities : List (String × String)
  requires_synthesis : Bool
  suggested_followups : List String
  deriving DecidableEq, Repr

/-- First-match association lookup (Python `dict.get`). -/
def eget (m : List (String × String)) (k : String) : Option String :=
  (m.find? (fun p => p.1 = k)).map (·.2)

/-- The molecule vocabulary of `_extract_entities`, paired with the
`.title()`-cased value stored in the entity map. -/
def moleculeVocab : List (String × String) :=
  [("sitagliptin", "Sitagliptin"), ("metformin", "Metformin"),
   ("pembrolizumab", "Pembrolizumab"), ("rivaroxaban", "Rivaroxaban"),
   ("adalimumab", "Adalimumab"), ("trastuzumab", "Trastuzumab"),
   ("nivolumab", "Nivolumab"), ("atezolizumab", "Atezolizumab"),
   ("fluticasone", "Fluticasone"), ("salmeterol", "Salmeterol"),
   ("budesonide", "Budesonide"), ("pirfenidone", "Pirfenidone"),
   ("nintedanib", "Nintedanib"), ("osimertinib", "Osimertinib"),
   ("imatinib", "Imatinib"), ("lenvatinib", "Lenvatinib")]

/-- Therapy-area keyword tables, in source (insertion) order, with the
`.title()`-cased stored value. -/
def therapyAreaVocab : List (String × List String) :=
  [("Oncology", ["oncology", "cancer", "tumor", "carcinoma", "nsclc", "melanoma"]),
   ("Diabetes", ["diabetes", "diabetic", "glucose", "insulin", "a1c", "hba1c"]),
   ("Respiratory", ["respiratory", "copd", "asthma", "ipf", "lung", "pulmonary"]),
   ("Cardiovascular", ["cardiovascular", "cardiac", "heart", "hypertension", "cholesterol"]),
   ("Immunology", ["immunology", "autoimmune", "rheumatoid", "arthritis", "psoriasis"]),
   ("Neurology", ["neurology", "neurological", "alzheimer", "parkinson", "ms", "multiple sclerosis"])]

/-- Region keyword tables with the `.upper()`-cased stored value. -/
def regionVocab : List (String × List String) :=
  [("INDIA", ["india", "indian"]),
   ("US", ["us", "usa", "united states", "america"]),
   ("EU", ["europe", "european", "eu"]),
   ("CHINA", ["china", "chinese"]),
   ("JAPAN", ["japan", "japanese"]),
   ("GLOBAL", ["global", "worldwide", "international"])]

/-- `IntentClassifier._extract_entities`. -/
def extractEntities (query : List Char) : List (String × String) :=
  let q := lowerS query
  let mol :=
    match moleculeVocab.find? (fun p => containsSub (str p.1) q) with
    | some p => [("molecule", p.2)]
    | none => []
  let area :=
    match therapyAreaVocab.find?
        (fun p => p.2.any (fun kw => containsSub (str kw) q)) with
    | some p => [("therapy_area", p.1)]
    | none => []
  let region :=
    match regionVocab.find?
        (fun p => p.2.any (fun kw => containsSub (str kw) q)) with
    | some p => [("region", p.1)]
    | none => []
  mol ++ area ++ region

/-- The `float` confidence constants of the classifier, as exact
rationals in reduced constructor form (so that comparisons reduce in the
kernel); lemmas below identify them with the decimal literals. -/
def conf095 : ℚ := ⟨19, 20, by decide, by decide⟩

def conf090 : ℚ := ⟨9, 10, by decide, by decide⟩

def conf085 : ℚ := ⟨17, 20, by decide, by decide⟩

def conf070 : ℚ := ⟨7, 10, by decide, by decide⟩

def conf050 : ℚ := ⟨1, 2, by decide, by decide⟩

/-- One rule of `_rule_based_classify`. -/
structure ClassifierRule where
  keywords : List String
  intent : String
  agents : List AgentType
  confidence : ℚ
  requiresSynthesis : Bool
  followups : List String

/-- The ordered rule list of `_rule_based_classify`. -/
def classifierRules : List ClassifierRule :=
  [ ⟨["market size", "market share", "cagr", "growth rate", "whitespace",
      "competition level", "low competition"],
     "market_analysis", [.market], conf095, false,
     ["What about patent landscape?", "Show clinical trial activity"]⟩,
    ⟨["patent", "expiry", "expire", "fto", "freedom to operate",
      "generic entry", "ip landscape"],
     "patent_analysis", [.patent], conf095, false,
     ["Check market opportunity", "Analyze competitor patents"]⟩,
    ⟨["clinical trial", "phase ", "pipeline", "repurpos", "trial data", "nct"],
     "clinical_research", [.clinical], conf095, false,
     ["What's the competitive landscape?", "Check patent status"]⟩,
    ⟨["patient complain", "patient voice", "sentiment", "patient feedback",
      "what are patients", "patient need"],
     "patient_insights", [.patient], conf095, false,
     ["Analyze market opportunity", "Check unmet needs"]⟩,
    ⟨["competitor", "war game", "simulate", "competitive", "what will",
      "counter strategy"],
     "competitive_intelligence", [.competitor], conf095, false,
     ["Check patent landscape", "Analyze market dynamics"]⟩,
    ⟨["import", "export", "trade", "supply", "source", "api sourcing",
      "pricing"],
     "supply_chain", [.trade], conf095, false,
     ["Check market data", "Analyze competitors"]⟩,
    ⟨["latest", "recent", "news", "fda approv", "announced", "today",
      "this week", "this month", "2024", "2025"],
     "current_events", [.web], conf090, false,
     ["Analyze impact on market", "Check competitive implications"]⟩,
    ⟨["internal", "our strategy", "our document", "company", "field report",
      "our analysis"],
     "internal_knowledge", [.internal], conf090, false,
     ["Compare with market data", "Check latest developments"]⟩,
    ⟨["should we", "evaluate", "full analysis", "comprehensive", "enter the",
      "opportunity assessment"],
     "comprehensive_analysis", [.market, .patent, .clinical, .competitor],
     conf085, true,
     ["Deep dive into specific area", "Check patient insights"]⟩ ]

/-- `IntentClassifier._rule_based_classify`. -/
def ruleBasedClassify (query : List Char) : Option IntentResult :=
  let q := lowerS query
  let entities := extractEntities query
  (classifierRules.find?
      (fun r => r.keywords.any (fun w => containsSub (str w) q))).map
    fun r => ⟨r.intent, r.agents, r.confidence, entities,
      r.requiresSynthesis, r.followups⟩

/-- `IntentClassifier._default_result`. -/
def defaultResult (query : List Char) : IntentResult :=
  ⟨"general_pharma", [.general], conf050, extractEntities query, false,
   ["Would you like market analysis?", "Should I check the patent landscape?",
    "Want to see clinical trial data?"]⟩

/-- `INTENT_DEFINITIONS[name]["agents"]`. -/
def intentAgents (name : String) : Option (List AgentType) :=
  if name = "market_analysis" then some [.market]
  else if name = "patent_analysis" then some [.patent]
  else if name = "clinical_research" then some [.clinical]
  else if name = "patient_insights" then some [.patient]
  else if name = "competitive_intelligence" then some [.competitor]
  else if name = "supply_chain" then some [.trade]
  else if name = "internal_knowledge" then some [.internal]
  else if name = "current_events" then some [.web]
  else if name = "comprehensive_analysis" then
    some [.market, .patent, .clinical, .competitor]
  else if name = "general_pharma" then some [.general]
  else none

/-- `list(dict.fromkeys(agents))`: deduplicate keeping first occurrences. -/
def dedupKeepFirst : List AgentType → List AgentType
  | [] => []
  | a :: rest => a :: dedupKeepFirst (rest.filter (fun b => b ≠ a))
  termination_by l => l.length
  decreasing_by
    have := rest.length_filter_le (fun b => b ≠ a)
    simp only [List.length_cons]
    omega

/-- The fields `_llm_classify` reads out of the decoded JSON object
(each `dict.get` default is applied at the use site). -/
structure LLMParsed where
  primary : Option String
  secondary : List String
  confidence : Option ℚ
  entities : List (String × String)
  requiresSynthesis : Option Bool

/-- Outcome of the LLM chat call plus JSON decoding: either the decode
failed (`JSONDecodeError`/`KeyError`/`IndexError`, caught inside
`_llm_classify`) or a decoded object was obtained. -/
inductive LLMOutcome where
  | parseFail
  | parsed (p : LLMParsed)

/-- Events observable on the boundary of the core, used to state gating
properties: an outbound LLM chat call, and a rate-limiter check. -/
inductive Event where
  | llmCall
  | limiterCheck
  deriving DecidableEq, Repr

/-- Tool invocations of the agent executors (`src/tools/*`), with the
arguments the orchestrator passes. -/
inductive ToolCall where
  | findLowCompetitionMarkets (therapyArea region : String)
  | queryIqviaMarket (therapyArea : String)
  | checkPatentExpiry (molecule country : String)
  | queryPatents (molecule : String)
  | findRepurposingOpportunities (molecule : String)
  | queryClinicalTrials (indication : String)
  | analyzePatientComplaints (therapyArea : String)
  | warGameScenario (molecule proposedStrategy : String)
  | queryTradeData (molecule : String)
  | searchInternalDocs (query : List Char)
  | searchPharmaNews (query : List Char)
  deriving DecidableEq, Repr

/-- The external world as seen by the core: the Groq chat endpoint used
by the classifier fallback, the general agent and the synthesiser, and
the data-retrieval tools.  An `Except.error` models a raised Python
exception carrying `str(e)`. -/
structure Env where
  llmClassifyCall :
    List Char → List (String × String) → Except String LLMOutcome
  generalChat : List Char → Except String (List Char)
  synthChat : List Char → Except String (List Char)
  tool : ToolCall → Except String (List Char)

/-- `IntentClassifier._llm_classify`.  Emits one `llmCall` event for the
chat call; a raised exception propagates, a parse failure yields the
default classification. -/
def llmClassify (env : Env) (query : List Char)
    (ctx : List (String × String)) :
    Except String IntentResult × List Event :=
  match env.llmClassifyCall query ctx with
  | .error e => (.error e, [.llmCall])
  | .ok .parseFail => (.ok (defaultResult query), [.llmCall])
  | .ok (.parsed p) =>
    let primary := p.primary.getD "general_pharma"
    let agents0 := (primary :: p.secondary).flatMap
      (fun i => (intentAgents i).getD [])
    let agents1 := dedupKeepFirst agents0
    let agents := if agents1 = [] then [AgentType.general] else agents1
    (.ok ⟨primary, agents, p.confidence.getD conf070, p.entities,
        p.requiresSynthesis.getD (1 < agents.length), []⟩,
     [.llmCall])

/-- `IntentClassifier.classify`: rule-based pass first; LLM fallback when
no rule matched or its confidence is below 0.9; any exception from the
fallback is caught and the rule result (if any) or the default is
returned. -/
def classify (env : Env) (query : List Char)
    (ctx : List (String × String)) : IntentResult × List Event :=
  let ruleResult := ruleBasedClassify query
  match ruleResult with
  | some r =>
    if conf090 ≤ r.confidence then (r, [])
    else
      match llmClassify env query ctx with
      | (.ok res, evs) => (res, evs)
      | (.error _, evs) => (r, evs)
  | none =>
    match llmClassify env query ctx with
    | (.ok res, evs) => (res, evs)
    | (.error _, evs) => (defaultResult query, evs)

/-! ## `orchestrator.py`: `MasterOrchestrator`

Wall-clock timing is not modelled: every `execution_time_ms` /
`total_time_ms` is 0.  `_execute_parallel` collects results in
`as_completed` order; the embedding uses submission order (one fixed
representative of the nondeterministic completion orders — none of the
claims below depends on the order of the collected list, only on its
members and length). -/

/-- `AgentResponse` dataclass.  `data` is the auxiliary dictionary the
`_run_*` helpers return; only its presence matters to the claims, so it
is modelled as the list of its string entries. -/
structure AgentResponse where
  agent_type : AgentType
  content : List Char
  success : Bool
  execution_time_ms : Nat
  data : Option (List (String × String))
  error : Option String
  deriving DecidableEq, Repr

/-- `OrchestratedResponse` dataclass. -/
structure OrchestratedResponse where
  content : List Char
  agents_used : List String
  intent : IntentResult
  individual_responses : List AgentResponse
  total_time_ms : Nat
  was_synthesized : Bool
  deriving DecidableEq, Repr

/-- `_run_market_agent`. -/
def runMarketAgent (env : Env) (query : List Char) (intent : IntentResult) :
    Except String (List Char × List (String × String)) := do
  let therapyArea := (eget intent.entities "therapy_area").getD "Oncology"
  let region := (eget intent.entities "region").getD "India"
  let q := lowerS query
  let result ←
    if ["whitespace", "low competition", "opportunity"].any
        (fun w => containsSub (str w) q) then
      env.tool (.findLowCompetitionMarkets therapyArea region)
    else
      env.tool (.queryIqviaMarket therapyArea)
  return (result, [("therapy_area", therapyArea), ("region", region)])

/-- `_run_patent_agent`. -/
def runPatentAgent (env : Env) (query : List Char) (intent : IntentResult) :
    Except String (List Char × List (String × String)) := do
  let molecule := (eget intent.entities "molecule").getD "Rivaroxaban"
  let q := lowerS query
  let result ←
    if ["expiry", "expire", "when"].any (fun w => containsSub (str w) q) then
      env.tool (.checkPatentExpiry molecule "US")
    else
      env.tool (.queryPatents molecule)
  return (result, [("molecule", molecule)])

/-- `_run_clinical_agent`. -/
def runClinicalAgent (env : Env) (query : List Char)
    (intent : IntentResult) :
    Except String (List Char × List (String × String)) := do
  let molecule := eget intent.entities "molecule"
  let therapyArea := (eget intent.entities "therapy_area").getD "Oncology"
  let q := lowerS query
  let result ←
    match molecule with
    | some m =>
      if ["repurpos", "new indication"].any
          (fun w => containsSub (str w) q) then
        env.tool (.findRepurposingOpportunities m)
      else env.tool (.queryClinicalTrials therapyArea)
    | none => env.tool (.queryClinicalTrials therapyArea)
  return (result,
    (match molecule with | some m => [("molecule", m)] | none => []) ++
      [("therapy_area", therapyArea)])

/-- `_run_patient_agent`. -/
def runPatientAgent (env : Env) (_query : List Char)
    (intent : IntentResult) :
    Except String (List Char × List (String × String)) := do
  let therapyArea := (eget intent.entities "therapy_area").getD "Diabetes"
  let result ← env.tool (.analyzePatientComplaints therapyArea)
  return (result, [("therapy_area", therapyArea)])

/-- `_run_competitor_agent`. -/
def runCompetitorAgent (env : Env) (_query : List Char)
    (intent : IntentResult) :
    Except String (List Char × List (String × String)) := do
  let molecule := (eget intent.entities "molecule").getD "Rivaroxaban"
  let result ←
    env.tool (.warGameScenario molecule "Competitive entry assessment")
  return (result, [("molecule", molecule)])

/-- `_run_trade_agent`. -/
def runTradeAgent (env : Env) (_query : List Char) (intent : IntentResult) :
    Except String (List Char × List (String × String)) := do
  let molecule := (eget intent.entities "molecule").getD "Metformin"
  let result ← env.tool (.queryTradeData molecule)
  return (result, [("molecule", molecule)])

/-- `_run_internal_agent`. -/
def runInternalAgent (env : Env) (query : List Char)
    (_intent : IntentResult) :
    Except String (List Char × List (String × String)) := do
  let result ← env.tool (.searchInternalDocs query)
  return (result, [])

/-- `_run_web_agent`. -/
def runWebAgent (env : Env) (query : List Char) (_intent : IntentResult) :
    Except String (List Char × List (String × String)) := do
  let result ← env.tool (.searchPharmaNews query)
  return (result, [])

/-- `_run_general_agent`: one Groq chat call with the query. -/
def runGeneralAgent (env : Env) (query : List Char)
    (_intent : IntentResult) :
    Except String (List Char × List (String × String)) := do
  let result ← env.generalChat query
  return (result, [])

/-- `_execute_agent`: dispatch on the agent type, wrap the whole body in
the `try`/`except` that turns any exception into a failed
`AgentResponse`.  The general branch performs an LLM call, hence the
event. -/
def executeAgent (env : Env) (query : List Char) (agentType : AgentType)
    (intent : IntentResult) : AgentResponse × List Event :=
  let (result, evs) :=
    match agentType with
    | .market => (runMarketAgent env query intent, [])
    | .patent => (runPatentAgent env query intent, [])
    | .clinical => (runClinicalAgent env query intent, [])
    | .patient => (runPatientAgent env query intent, [])
    | .competitor => (runCompetitorAgent env query intent, [])
    | .trade => (runTradeAgent env query intent, [])
    | .internal => (runInternalAgent env query intent, [])
    | .web => (runWebAgent env query intent, [])
    | .general => (runGeneralAgent env query intent, [Event.llmCall])
  match result with
  | .ok (content, data) => (⟨agentType, content, true, 0, some data, none⟩, evs)
  | .error e => (⟨agentType, [], false, 0, none, some e⟩, evs)

/-- `_execute_general_agent` (note: unlike `_execute_agent`, its failure
branch puts `"Error: " ++ str(e)` into `content`). -/
def executeGeneralAgent (env : Env) (query : List Char)
    (intent : IntentResult) : AgentResponse × List Event :=
  match runGeneralAgent env query intent with
  | .ok (content, data) =>
    (⟨.general, content, true, 0, some data, none⟩, [Event.llmCall])
  | .error e =>
    (⟨.general, str ("Error: " ++ e), false, 0, none, some e⟩,
     [Event.llmCall])

/-- `_execute_single`. -/
def executeSingle (env : Env) (query : List Char) (intent : IntentResult) :
    List AgentResponse × List Event :=
  match intent.agents_needed with
  | [] =>
    let (r, evs) := executeGeneralAgent env query intent
    ([r], evs)
  | agentType :: _ =>
    let (r, evs) := executeAgent env query agentType intent
    ([r], evs)

def maxParallelAgents : Nat := 4

/-- `_execute_parallel`: only the first `max_parallel_agents` entries of
`agents_needed` are submitted to the pool. -/
def executeParallel (env : Env) (query : List Char)
    (intent : IntentResult) : List AgentResponse × List Event :=
  let pairs := (intent.agents_needed.take maxParallelAgents).map
    (fun agentType => executeAgent env query agentType intent)
  (pairs.map (·.1), pairs.flatMap (·.2))

/-- `"\n\n---\n\n".join(...)` -/
def joinSep (sep : List Char) : List (List Char) → List Char
  | [] => []
  | [w] => w
  | w :: ws => w ++ sep ++ joinSep sep ws

/-- `_synthesize_responses`: content of the single successful response,
a fixed message when none succeeded, otherwise one synthesis LLM call
whose exception (if any) propagates. -/
def synthesizeResponses (env : Env) (query : List Char)
    (responses : List AgentResponse) (_intent : IntentResult) :
    Except String (List Char) × List Event :=
  let successful := responses.filter (fun r => r.success ∧ r.content ≠ [])
  match successful with
  | [] =>
    (.ok (str "I couldn't gather sufficient information to answer your query."),
     [])
  | [r] => (.ok r.content, [])
  | _ =>
    let context := joinSep (str "\n\n---\n\n")
      (successful.map (fun r =>
        str ("### " ++ r.agent_type.titleName ++ " Analysis:\n") ++ r.content))
    let userMessage :=
      str "Original Query: " ++ query ++
      str "\n\nSpecialist Analyses:\n" ++ context ++
      str "\n\nPlease synthesize these analyses into a unified strategic response."
    (env.synthChat userMessage, [Event.llmCall])

/-- The placeholder intent of the invalid-input short circuit. -/
def blockedIntent : IntentResult := ⟨"blocked", [], 1, [], false, []⟩

/-- `MasterOrchestrator.process_query`.  The result is an `Except`: an
`Except.error` is an exception escaping `process_query` to its caller
(there is no top-level handler in the source).  `user_id` is accepted
and unused, as in the source. -/
def processQuery (env : Env) (query : List Char)
    (ctx : List (String × String)) (_userId : Nat) :
    Except String OrchestratedResponse × List Event :=
  let validation := validateInput query
  if validation.is_valid = false then
    (.ok ⟨validation.message, ["Guardrails"], blockedIntent, [], 0, false⟩, [])
  else
    let cleanQuery := validation.sanitized_input
    let (intent, ev1) := classify env cleanQuery ctx
    let (responses, ev2) :=
      if intent.requires_synthesis ∨ 1 < intent.agents_needed.length then
        executeParallel env cleanQuery intent
      else executeSingle env cleanQuery intent
    let (synthesized, wasSynthesized, ev3) :=
      if 1 < responses.length ∧ intent.requires_synthesis then
        let (s, evs) := synthesizeResponses env cleanQuery responses intent
        (s, true, evs)
      else
        match responses with
        | r :: _ => (.ok r.content, false, [])
        | [] =>
          (.ok (str "I couldn't find relevant information for your query. Please try rephrasing or ask about a specific topic."),
           false, [])
    match synthesized with
    | .error e => (.error e, ev1 ++ ev2 ++ ev3)
    | .ok content =>
      let filteredContent := (validateOutput content).1
      let finalContent := addContextWarnings filteredContent cleanQuery
      (.ok ⟨finalContent,
        (responses.filter (·.success)).map (fun r => r.agent_type.titleName),
        intent, responses, 0, wasSynthesized⟩,
       ev1 ++ ev2 ++ ev3)

/-! ## `rate_limiter.py`: `RateLimiter`

The class-level in-memory cache is the state; wall-clock dates are
abstract day numbers (`today`).  Python truthiness of `user_id` is
modelled by `Nat` with `0` for `None`/falsy.  The best-effort database
insert in `record_usage` (whose exceptions are swallowed) is not
modelled. -/

inductive UserRole where
  | analyst | manager | executive | admin
  deriving DecidableEq, Repr

/-- The per-role daily limits of `RateLimiter.LIMITS`. -/
def roleLimit (api : String) (role : UserRole) : Nat :=
  if api = "groq" then
    match role with
    | .analyst => 100 | .manager => 200 | .executive => 500 | .admin => 1000
  else
    match role with
    | .analyst => 50 | .manager => 100 | .executive => 200 | .admin => 500

/-- The global daily ceilings of `RateLimiter.LIMITS`. -/
def globalLimit (api : String) : Nat := if api = "groq" then 5000 else 1000

/-- The APIs present in `RateLimiter.LIMITS`. -/
def configuredApis : List String := ["groq", "tavily"]

/-- The class-level dictionary `_cache` and date `_cache_date`, as an
association list in which the most recent binding of a key shadows older
ones (Python dictionary get/set semantics). -/
structure RLState where
  cache : List (String × Nat)
  cacheDate : Option Nat
  deriving DecidableEq, Repr

def cacheGet (cache : List (String × Nat)) (k : String) : Nat :=
  ((cache.find? (fun p => p.1 = k)).map (·.2)).getD 0

def cacheSet (cache : List (String × Nat)) (k : String) (v : Nat) :
    List (String × Nat) :=
  (k, v) :: cache

/-- `RateLimiter._get_cache_key`. -/
def getCacheKey (api : String) (userId : Nat) : String :=
  if userId ≠ 0 then api ++ ":user:" ++ toString userId
  else api ++ ":global"

/-- `RateLimiter._reset_cache_if_needed`. -/
def resetCacheIfNeeded (today : Nat) (s : RLState) : RLState :=
  if s.cacheDate ≠ some today then ⟨[], some today⟩ else s

/-- `RateLimiter.check_limit`: result `(allowed, current_count, limit)`
plus the (possibly day-reset) state. -/
def checkLimit (today : Nat) (api : String) (userId : Nat)
    (role : UserRole) (s : RLState) : (Bool × Nat × Nat) × RLState :=
  let s := resetCacheIfNeeded today s
  if ¬ configuredApis.contains api then ((true, 0, 9999), s)
  else
    let userLimit := roleLimit api role
    let gLimit := globalLimit api
    let userKey := getCacheKey api userId
    let globalKey := getCacheKey api 0
    let userCount := cacheGet s.cache userKey
    let globalCount := cacheGet s.cache globalKey
    if userId ≠ 0 ∧ userLimit ≤ userCount then
      ((false, userCount, userLimit), s)
    else if gLimit ≤ globalCount then ((false, globalCount, gLimit), s)
    else ((true, userCount, userLimit), s)

/-- `RateLimiter.record_usage` (the cache update; the DB write is
best-effort and ignored). -/
def recordUsage (today : Nat) (api : String) (userId : Nat) (s : RLState) :
    RLState :=
  let s := resetCacheIfNeeded today s
  let globalKey := getCacheKey api 0
  let cache1 :=
    if userId ≠ 0 then
      let userKey := getCacheKey api userId
      cacheSet s.cache userKey (cacheGet s.cache userKey + 1)
    else s.cache
  ⟨cacheSet cache1 globalKey (cacheGet cache1 globalKey + 1), s.cacheDate⟩

/-! ### Interleaving model of `record_usage`'s cache increments

`record_usage` increments each counter with
`cache[k] = cache.get(k, 0) + 1`: under CPython's GIL the dictionary
read and the dictionary write are each atomic, but the read-add-write
sequence is not, so two threads may interleave between them.  A thread
is the four micro-operations below (for a truthy `user_id`, on one fixed
`(api_name, user_id)` key pair); a schedule is the order in which
threads take their next micro-operation. -/

inductive MicroOp where
  | readUser | writeUser | readGlobal | writeGlobal
  deriving DecidableEq, Repr

/-- The micro-operations one `record_usage` call performs on the cache. -/
def recordProgram : List MicroOp := [.readUser, .writeUser, .readGlobal, .writeGlobal]

/-- Per-thread state: remaining program and the values read into the
thread's temporaries. -/
structure ThreadState where
  todo : List MicroOp
  regUser : Nat
  regGlobal : Nat
  deriving DecidableEq, Repr

def freshThread : ThreadState := ⟨recordProgram, 0, 0⟩

/-- Counters: the user-scoped and the global cache entry. -/
structure Counters where
  user : Nat
  global : Nat
  deriving DecidableEq, Repr

def microStep (c : Counters) (t : ThreadState) : Counters × ThreadState :=
  match t.todo with
  | [] => (c, t)
  | op :: rest =>
    match op with
    | .readUser => (c, ⟨rest, c.user, t.regGlobal⟩)
    | .writeUser => (⟨t.regUser + 1, c.global⟩, ⟨rest, t.regUser, t.regGlobal⟩)
    | .readGlobal => (c, ⟨rest, t.regUser, c.global⟩)
    | .writeGlobal =>
      (⟨c.user, t.regGlobal + 1⟩, ⟨rest, t.regUser, t.regGlobal⟩)

/-- Run a schedule: each entry names the thread that performs its next
micro-operation (an index out of range, or a finished thread, is a
no-op). -/
def runSched (sched : List Nat) (c : Counters)
    (threads : List ThreadState) : Counters × List ThreadState :=
  match sched with
  | [] => (c, threads)
  | tid :: rest =>
    match threads[tid]? with
    | none => runSched rest c threads
    | some t =>
      runSched rest (microStep c t).1 (threads.set tid (microStep c t).2)

/-- The fully serialized schedule: thread 0's four operations, then
thread 1's, ... -/
def serialSched (k : Nat) : List Nat :=
  (List.range k).flatMap (fun i => List.replicate recordProgram.length i)

/-! ## Concrete environments used to instantiate the claims -/

/-- Decidable equality for `Except` results, used to evaluate the
orchestrator's outcomes at concrete inputs. -/
instance {ε α : Type} [DecidableEq ε] [DecidableEq α] :
    DecidableEq (Except ε α) := fun a b =>
  match a, b with
  | .ok x, .ok y =>
    match decEq x y with
    | isTrue h => isTrue (by rw [h])
    | isFalse h => isFalse (by intro hc; injection hc; exact h (by assumption))
  | .error x, .error y =>
    match decEq x y with
    | isTrue h => isTrue (by rw [h])
    | isFalse h => isFalse (by intro hc; injection hc; exact h (by assumption))
  | .ok _, .error _ => isFalse (by intro hc; injection hc)
  | .error _, .ok _ => isFalse (by intro hc; injection hc)

/-- Every external call succeeds; the LLM classification response fails
to parse (so the classifier falls back to the default result). -/
def envAllOk : Env where
  llmClassifyCall := fun _ _ => .ok .parseFail
  generalChat := fun _ => .ok (str "General answer.")
  synthChat := fun _ => .ok (str "Synth summary.")
  tool := fun _ => .ok (str "tool data")

/-- The patent-expiry lookup raises; everything else succeeds. -/
def envPatentDown : Env :=
  { envAllOk with
    tool := fun c =>
      match c with
      | .checkPatentExpiry _ _ => .error "db down"
      | _ => .ok (str "tool data") }

/-- The classification LLM call and the synthesis LLM call raise. -/
def envSynthDown : Env :=
  { envAllOk with
    llmClassifyCall := fun _ _ => .error "groq down"
    synthChat := fun _ => .error "network down" }

/-- The general agent's LLM call raises. -/
def envGeneralDown : Env :=
  { envAllOk with generalChat := fun _ => .error "GROQ_API_KEY is not set" }

/-- The classification LLM call raises. -/
def envLLMDown : Env :=
  { envAllOk with llmClassifyCall := fun _ _ => .error "groq down" }

/-- An intent selecting five agents (constructible through the LLM path,
e.g. primary `comprehensive_analysis` with secondary `supply_chain`). -/
def fiveAgentIntent : IntentResult :=
  ⟨"comprehensive_analysis", [.market, .patent, .clinical, .competitor, .trade],
   conf090, [], true, []⟩

/-- The text `validate_input` runs its blocked/sensitive/PII scans on:
the whitespace-normalised query, truncated to the maximum length. -/
def normTrunc (query : List Char) : List Char :=
  let s0 := normalizeWs query
  if MAX_QUERY_LENGTH < s0.length then s0.take MAX_QUERY_LENGTH else s0

/-! ## General lemmas about the regex engine -/

/-- A lower bound for the number of characters any match of `re` must
consume. -/
def minRE : RE → Nat
  | .one _ => 1
  | .runGE _ n => n
  | .runBB _ lo _ => lo
  | .lits _ l => l.length
  | .wordB => 0
  | .seq a b => minRE a + minRE b
  | .alt a b => min (minRE a) (minRE b)
  | .eps => 0

theorem descRange_mem {k lo hi : Nat} (h : k ∈ descRange lo hi) :
    lo ≤ k ∧ k ≤ hi := by
  simp only [descRange, List.mem_map, List.mem_range] at h
  obtain ⟨i, hi', rfl⟩ := h
  omega

theorem runLen_le (p : Char → Bool) : ∀ s : List Char, runLen p s ≤ s.length := by
  intro s
  induction s with
  | nil => simp [runLen]
  | cons c rest ih =>
    simp only [runLen, List.takeWhile] at ih ⊢
    split <;> simp_all

theorem litsMatch_length {ci : Bool} :
    ∀ {l s : List Char}, litsMatch ci l s = true → l.length ≤ s.length := by
  intro l
  induction l with
  | nil => intro s _; simp
  | cons a l' ih =>
    intro s h
    cases s with
    | nil => simp [litsMatch] at h
    | cons b s' =>
      simp only [litsMatch, Bool.and_eq_true] at h
      have := ih h.2
      simp only [List.length_cons]
      omega

theorem matchRE_bounds :
    ∀ (re : RE) (prev : Option Char) (s : List Char) (k : Nat),
      k ∈ matchRE re prev s → minRE re ≤ k ∧ k ≤ s.length := by
  intro re
  induction re with
  | one p =>
    intro prev s k h
    cases s with
    | nil => simp [matchRE] at h
    | cons c rest =>
      simp only [matchRE] at h
      split at h <;> simp_all [minRE]
  | runGE p n =>
    intro prev s k h
    simp only [matchRE] at h
    split at h
    · have := descRange_mem h
      exact ⟨this.1, le_trans this.2 (runLen_le p s)⟩
    · simp at h
  | runBB p lo hi =>
    intro prev s k h
    simp only [matchRE] at h
    split at h
    · have := descRange_mem h
      exact ⟨this.1, le_trans this.2 (le_trans (min_le_left _ _) (runLen_le p s))⟩
    · simp at h
  | lits ci l =>
    intro prev s k h
    simp only [matchRE] at h
    split at h
    · simp only [List.mem_singleton] at h
      subst h
      exact ⟨le_refl _, litsMatch_length (by assumption)⟩
    · simp at h
  | wordB =>
    intro prev s k h
    simp only [matchRE] at h
    split at h <;> simp_all [minRE]
  | seq a b iha ihb =>
    intro prev s k h
    simp only [matchRE, List.mem_flatMap, List.mem_map] at h
    obtain ⟨ka, hka, kb, hkb, rfl⟩ := h
    have h1 := iha prev s ka hka
    have h2 := ihb (prevAfter prev s ka) (s.drop ka) kb hkb
    simp only [List.length_drop] at h2
    exact ⟨by simp only [minRE]; omega, by omega⟩
  | alt a b iha ihb =>
    intro prev s k h
    simp only [matchRE, List.mem_append] at h
    rcases h with h | h
    · have := iha prev s k h
      exact ⟨le_trans (min_le_left _ _) this.1, this.2⟩
    · have := ihb prev s k h
      exact ⟨le_trans (min_le_right _ _) this.1, this.2⟩
  | eps =>
    intro prev s k h
    simp only [matchRE, List.mem_singleton] at h
    subst h
    simp [minRE]

theorem matchHere_bounds {re : RE} {prev : Option Char} {s : List Char}
    {k : Nat} (h : matchHere re prev s = some k) :
    minRE re ≤ k ∧ k ≤ s.length :=
  matchRE_bounds re prev s k (List.mem_of_mem_head? h)

theorem findFrom_isSome_length {re : RE} :
    ∀ {prev : Option Char} {s : List Char} {pos : Nat},
      (findFrom re prev s pos).isSome = true → minRE re ≤ s.length := by
  intro prev s
  induction s generalizing prev with
  | nil =>
    intro pos h
    simp only [findFrom] at h
    split at h
    · have := matchHere_bounds (by assumption)
      simpa using le_trans this.1 this.2
    · simp at h
  | cons c rest ih =>
    intro pos h
    simp only [findFrom] at h
    split at h
    · have := matchHere_bounds (by assumption)
      exact le_trans this.1 this.2
    · have := ih h
      simp only [List.length_cons]
      omega

theorem reSearch_length {re : RE} {t : List Char}
    (h : reSearch re t = true) : minRE re ≤ t.length :=
  findFrom_isSome_length (by simpa [reSearch] using h)

theorem reSubAux_id_of_none {re : RE} {repl : List Char} :
    ∀ {prev : Option Char} {s : List Char} {pos : Nat},
      findFrom re prev s pos = none → reSubAux re repl prev s = s := by
  intro prev s
  induction s generalizing prev with
  | nil => intro pos _; simp [reSubAux]
  | cons c rest ih =>
    intro pos h
    simp only [findFrom] at h
    split at h
    · exact absurd h (by simp)
    · rw [reSubAux]
      split
      · simp_all
      · rw [ih h]

theorem reSub_id_of_not_search {re : RE} {repl t : List Char}
    (h : reSearch re t = false) : reSub re repl t = t := by
  have h0 : findFrom re none t 0 = none := by
    simpa [reSearch, Option.isSome_iff_ne_none] using h
  exact reSubAux_id_of_none h0

theorem reSubFuel_eq (re : RE) (repl : List Char) :
    ∀ (fuel : Nat) (prev : Option Char) (s : List Char),
      s.length ≤ fuel →
      reSubFuel re repl fuel prev s = reSubAux re repl prev s := by
  intro fuel
  induction fuel with
  | zero =>
    intro prev s hs
    have h0 : s = [] := by
      cases s with
      | nil => rfl
      | cons a t => simp at hs
    subst h0
    simp [reSubFuel, reSubAux]
  | succ fuel ih =>
    intro prev s hs
    cases s with
    | nil => simp [reSubFuel, reSubAux]
    | cons c rest =>
      have hr : rest.length ≤ fuel := by
        simp only [List.length_cons] at hs
        omega
      simp only [reSubFuel]
      rw [reSubAux]
      rcases hm : matchHere re prev (c :: rest) with _ | k
      · dsimp only
        rw [ih (some c) rest hr]
      · cases k with
        | zero =>
          dsimp only
          rw [ih (some c) rest hr]
        | succ k' =>
          dsimp only
          rw [ih (prevAfter prev (c :: rest) (k' + 1)) (rest.drop k')
            (by simp only [List.length_drop]; omega)]

theorem reSub_eq_fuel (re : RE) (repl s : List Char) :
    reSub re repl s = reSubFuel re repl s.length none s :=
  (reSubFuel_eq re repl s.length none s (le_refl _)).symm

theorem startsWith_append_self :
    ∀ (l x : List Char), startsWith l (l ++ x) = true := by
  intro l x
  induction l with
  | nil => simp [startsWith]
  | cons a l' ih => simpa [startsWith] using ih

theorem containsSub_append_self (l x : List Char) :
    containsSub l (l ++ x) = true := by
  cases l with
  | nil => cases x <;> simp [containsSub, startsWith]
  | cons c l' =>
    show containsSub (c :: l') (c :: (l' ++ x)) = true
    simp only [containsSub, Bool.or_eq_true]
    left
    rw [← List.cons_append]
    exact startsWith_append_self _ _

theorem containsSub_cons_of (n : List Char) (c : Char) (hs : List Char)
    (h : containsSub n hs = true) : containsSub n (c :: hs) = true := by
  simp [containsSub, h]

theorem reSubAux_contains_repl {re : RE} {repl : List Char}
    (hmin : 0 < minRE re) :
    ∀ {prev : Option Char} {s : List Char} {pos : Nat},
      (findFrom re prev s pos).isSome = true →
      containsSub repl (reSubAux re repl prev s) = true := by
  intro prev s
  induction s generalizing prev with
  | nil =>
    intro pos h
    simp only [findFrom] at h
    split at h
    · exfalso
      have := matchHere_bounds (by assumption)
      simp only [List.length_nil] at this
      omega
    · simp at h
  | cons c rest ih =>
    intro pos h
    rw [reSubAux]
    simp only [findFrom] at h
    split at h
    · rename_i k hk
      have hb := matchHere_bounds hk
      cases k with
      | zero => exfalso; omega
      | succ k' =>
        rw [hk]
        exact containsSub_append_self repl _
    · rename_i hk
      rw [hk]
      exact containsSub_cons_of _ _ _ (ih h)

theorem reSub_contains_repl {re : RE} {repl t : List Char}
    (hmin : 0 < minRE re) (h : reSearch re t = true) :
    containsSub repl (reSub re repl t) = true := by
  have h0 : (findFrom re none t 0).isSome = true := by
    simpa [reSearch] using h
  exact reSubAux_contains_repl hmin h0

/-! ## Lemmas about whitespace normalisation -/

theorem splitWsAux_all_ws :
    ∀ {q : List Char}, (∀ c ∈ q, isPyWs c = true) → splitWsAux q [] = [] := by
  intro q
  induction q with
  | nil => intro _; simp [splitWsAux]
  | cons c rest ih =>
    intro h
    have hc : isPyWs c = true := h c (by simp)
    simp only [splitWsAux, hc, if_true, if_pos rfl]
    exact ih (fun d hd => h d (by simp [hd]))

theorem strip_nil_all_ws {q : List Char} (h : strip q = []) :
    ∀ c ∈ q, isPyWs c = true := by
  intro c hc
  by_contra hnot
  have h1 : q.dropWhile isPyWs ≠ [] := by
    intro hnil
    have := List.dropWhile_eq_nil_iff.mp hnil c hc
    exact hnot this
  have h2 : (q.dropWhile isPyWs).reverse.dropWhile isPyWs = [] := by
    have : ((q.dropWhile isPyWs).reverse.dropWhile isPyWs).reverse = [] := h
    simpa using this
  have h3 : ∀ d ∈ (q.dropWhile isPyWs).reverse, isPyWs d = true :=
    List.dropWhile_eq_nil_iff.mp h2
  have h4 : ∀ d ∈ q.dropWhile isPyWs, isPyWs d = true := by
    intro d hd
    exact h3 d (by simpa using hd)
  rcases h5 : q.dropWhile isPyWs with _ | ⟨d, rest⟩
  · exact h1 h5
  · have hd : isPyWs d = false := by
      have := List.head?_dropWhile_not isPyWs q
      rw [h5] at this
      simpa using this
    have := h4 d (by simp [h5])
    simp [hd] at this

theorem normalizeWs_nil_of_strip_nil {q : List Char} (h : strip q = []) :
    normalizeWs q = [] := by
  unfold normalizeWs splitWs
  rw [splitWsAux_all_ws (strip_nil_all_ws h)]
  rfl

theorem conf095_eq : conf095 = 0.95 := by
  unfold conf095
  rw [Rat.mk'_eq_divInt, Rat.divInt_eq_div]
  norm_num

theorem conf090_eq : conf090 = 0.9 := by
  unfold conf090
  rw [Rat.mk'_eq_divInt, Rat.divInt_eq_div]
  norm_num

theorem conf085_eq : conf085 = 0.85 := by
  unfold conf085
  rw [Rat.mk'_eq_divInt, Rat.divInt_eq_div]
  norm_num

theorem conf070_eq : conf070 = 0.7 := by
  unfold conf070
  rw [Rat.mk'_eq_divInt, Rat.divInt_eq_div]
  norm_num

theorem conf050_eq : conf050 = 0.5 := by
  unfold conf050
  rw [Rat.mk'_eq_divInt, Rat.divInt_eq_div]
  norm_num

/-! ## Lemmas about the rate limiter state -/

theorem cacheGet_set_same (c : List (String × Nat)) (k : String) (v : Nat) :
    cacheGet (cacheSet c k v) k = v := by
  simp [cacheGet, cacheSet, List.find?]

theorem cacheGet_set_other (c : List (String × Nat)) {k k' : String}
    (v : Nat) (h : k' ≠ k) :
    cacheGet (cacheSet c k v) k' = cacheGet c k' := by
  simp [cacheGet, cacheSet, List.find?, Ne.symm h]

theorem getCacheKey_ne {api : String} {uid : Nat} (huid : uid ≠ 0) :
    getCacheKey api uid ≠ getCacheKey api 0 := by
  intro h
  simp only [getCacheKey] at h
  rw [if_pos huid, if_neg (by simp)] at h
  have hd := congrArg String.data h
  simp only [String.data_append] at hd
  rw [List.append_assoc] at hd
  have h2 := List.append_cancel_left hd
  have h3 := congrArg (fun l => l[1]?) h2
  simp only [show (":user:" : String).data =
    [':', 'u', 's', 'e', 'r', ':'] from rfl,
    show (":global" : String).data =
    [':', 'g', 'l', 'o', 'b', 'a', 'l'] from rfl] at h3
  simp at h3

theorem resetCacheIfNeeded_same_day {today : Nat} {s : RLState}
    (h : s.cacheDate = some today) : resetCacheIfNeeded today s = s := by
  simp [resetCacheIfNeeded, h]

theorem recordUsage_same_day {today : Nat} {api : String} {uid : Nat}
    {s : RLState} (huid : uid ≠ 0) (hday : s.cacheDate = some today) :
    (recordUsage today api uid s).cacheDate = some today ∧
    cacheGet (recordUsage today api uid s).cache (getCacheKey api uid) =
      cacheGet s.cache (getCacheKey api uid) + 1 := by
  simp only [recordUsage, resetCacheIfNeeded_same_day hday, huid, ne_eq,
    not_false_eq_true, if_true]
  exact ⟨hday, by
    rw [cacheGet_set_other _ _ (getCacheKey_ne huid), cacheGet_set_same]⟩

theorem recordUsage_iterate {today : Nat} {api : String} {uid : Nat}
    (huid : uid ≠ 0) :
    ∀ (n : Nat) (s : RLState), s.cacheDate = some today →
      ((recordUsage today api uid)^[n] s).cacheDate = some today ∧
      cacheGet ((recordUsage today api uid)^[n] s).cache
          (getCacheKey api uid) =
        cacheGet s.cache (getCacheKey api uid) + n := by
  intro n
  induction n with
  | zero => intro s h; simp [h]
  | succ m ih =>
    intro s h
    rw [Function.iterate_succ_apply']
    obtain ⟨h1, h2⟩ := ih s h
    obtain ⟨h3, h4⟩ := recordUsage_same_day huid h1
    exact ⟨h3, by omega⟩

/-! ## The claims -/

/-- C5: `check_limit` allows a request only if both the user-scoped
counter is below the role's limit and the global counter is below the
global limit; and after `N` `record_usage` calls for the same
`(api_name, user)` on the same day (`N` the configured role limit), the
next `check_limit` returns `allowed = false` together with the violated
count and limit.  `uid ≠ 0` is Python truthiness of `user_id`. -/
theorem claim_C5_check_and_exhaustion (today : Nat) (api : String)
    (uid : Nat) (role : UserRole) (s : RLState)
    (hapi : configuredApis.contains api = true) (huid : uid ≠ 0)
    (hday : s.cacheDate = some today) :
    ((checkLimit today api uid role s).1.1 = true ↔
      (cacheGet s.cache (getCacheKey api uid) < roleLimit api role ∧
       cacheGet s.cache (getCacheKey api 0) < globalLimit api))
    ∧ (checkLimit today api uid role
        ((recordUsage today api uid)^[roleLimit api role] s)).1 =
      (false, cacheGet s.cache (getCacheKey api uid) + roleLimit api role,
       roleLimit api role) := by
  constructor
  · simp only [checkLimit, resetCacheIfNeeded_same_day hday]
    rw [if_neg (by simp only [not_not]; simpa using hapi)]
    by_cases h1 : roleLimit api role ≤ cacheGet s.cache (getCacheKey api uid)
    · rw [if_pos ⟨huid, h1⟩]
      simp
      omega
    · rw [if_neg (fun hc => h1 hc.2)]
      by_cases h2 : globalLimit api ≤ cacheGet s.cache (getCacheKey api 0)
      · rw [if_pos h2]
        simp
        omega
      · rw [if_neg h2]
        simp
        omega
  · obtain ⟨h1, h2⟩ := @recordUsage_iterate today api uid huid
      (roleLimit api role) s hday
    simp only [checkLimit, resetCacheIfNeeded_same_day h1]
    rw [if_neg (by simp only [not_not]; simpa using hapi)]
    rw [if_pos ⟨huid, by omega⟩]
    rw [h2]

/-- C5 witness: the tavily analyst limit (50) is exhausted after 50
records for user 7 on day 1. -/
theorem claim_C5_witness :
    (configuredApis.contains "tavily" = true ∧ (7 : Nat) ≠ 0 ∧
      (RLState.mk [] (some 1)).cacheDate = some 1)
    ∧ ((checkLimit 1 "tavily" 7 .analyst (RLState.mk [] (some 1))).1.1 = true ↔
        (cacheGet [] (getCacheKey "tavily" 7) < roleLimit "tavily" .analyst ∧
         cacheGet [] (getCacheKey "tavily" 0) < globalLimit "tavily"))
    ∧ (checkLimit 1 "tavily" 7 .analyst
        ((recordUsage 1 "tavily" 7)^[roleLimit "tavily" .analyst]
          (RLState.mk [] (some 1)))).1 =
      (false, cacheGet [] (getCacheKey "tavily" 7) + roleLimit "tavily" .analyst,
       roleLimit "tavily" .analyst) := by
  refine ⟨⟨by decide, by decide, rfl⟩, ?_⟩
  exact claim_C5_check_and_exhaustion 1 "tavily" 7 .analyst
    (RLState.mk [] (some 1)) (by decide) (by decide) rfl

theorem executeAgent_agent_type (env : Env) (query : List Char)
    (agentType : AgentType) (intent : IntentResult) :
    (executeAgent env query agentType intent).1.agent_type = agentType := by
  unfold executeAgent
  cases agentType <;> (dsimp only; split <;> rfl)

/-- C10: `_execute_parallel` submits only the first four entries of
`agents_needed`; when more than four agents are selected, each agent
beyond the fourth is never executed and contributes no entry to the
collected response list (hence neither to `individual_responses` nor to
`agents_used`). -/
theorem claim_C10_parallel_caps_at_four (env : Env) (query : List Char)
    (intent : IntentResult)
    (h : maxParallelAgents < intent.agents_needed.length) :
    (executeParallel env query intent).1.length = maxParallelAgents
    ∧ (executeParallel env query intent).1.map (·.agent_type) =
        intent.agents_needed.take maxParallelAgents
    ∧ ∀ a ∈ intent.agents_needed.drop maxParallelAgents,
        a ∉ intent.agents_needed.take maxParallelAgents →
        ∀ r ∈ (executeParallel env query intent).1, r.agent_type ≠ a := by
  have hmap : (executeParallel env query intent).1.map (·.agent_type) =
      intent.agents_needed.take maxParallelAgents := by
    simp only [executeParallel, List.map_map]
    rw [show ((fun x => x.agent_type) ∘
        (fun p => p.1) ∘
        (fun agentType => executeAgent env query agentType intent)) =
        fun agentType => (executeAgent env query agentType intent).1.agent_type
      from rfl]
    rw [show (fun agentType =>
        (executeAgent env query agentType intent).1.agent_type) = id from
      funext fun a => executeAgent_agent_type env query a intent]
    exact List.map_id _
  refine ⟨?_, hmap, ?_⟩
  · have := congrArg List.length hmap
    simp only [List.length_map, List.length_take] at this
    omega
  · intro a _ hnot r hr
    intro hEq
    apply hnot
    rw [← hmap]
    exact List.mem_map.mpr ⟨r, hr, hEq⟩

/-- C10 witness: with five selected agents only four responses are
produced, typed by the first four agents. -/
theorem claim_C10_witness :
    maxParallelAgents < fiveAgentIntent.agents_needed.length
    ∧ (executeParallel envAllOk (str "full analysis") fiveAgentIntent).1.length
        = maxParallelAgents
    ∧ (executeParallel envAllOk (str "full analysis")
        fiveAgentIntent).1.map (·.agent_type) =
        fiveAgentIntent.agents_needed.take maxParallelAgents :=
  ⟨by decide,
   (claim_C10_parallel_caps_at_four envAllOk (str "full analysis")
     fiveAgentIntent (by decide)).1,
   (claim_C10_parallel_caps_at_four envAllOk (str "full analysis")
     fiveAgentIntent (by decide)).2.1⟩

/-- C9 counterexample: when the general agent's LLM call raises,
`_execute_general_agent` returns `success = false` with the *non-empty*
content `"Error: <message>"`, contradicting `success=false → content=""`.
(The exception is still converted, not propagated.) -/
theorem claim_C9_counterexample :
    (executeGeneralAgent envGeneralDown (str "hello there")
        (defaultResult (str "hello there"))).1 =
      ⟨.general, str "Error: GROQ_API_KEY is not set", false, 0, none,
        some "GROQ_API_KEY is not set"⟩
    ∧ (executeGeneralAgent envGeneralDown (str "hello there")
        (defaultResult (str "hello there"))).1.content ≠ [] := by
  constructor
  · rfl
  · decide

/-- C9 amended: a failed response from `_execute_agent` has empty
content and its error set, and exceptions never escape it (it totally
returns an `AgentResponse`); a failed response from
`_execute_general_agent` also has its error set, but its content is the
non-empty string `"Error: " ++ str(e)`. -/
theorem claim_C9_failed_responses (env : Env) (query : List Char)
    (agentType : AgentType) (intent : IntentResult) :
    ((executeAgent env query agentType intent).1.success = false →
      (executeAgent env query agentType intent).1.content = [] ∧
      (executeAgent env query agentType intent).1.error ≠ none)
    ∧ ((executeGeneralAgent env query intent).1.success = false →
       ∃ e, (executeGeneralAgent env query intent).1.error = some e ∧
         (executeGeneralAgent env query intent).1.content =
           str ("Error: " ++ e) ∧
         (executeGeneralAgent env query intent).1.content ≠ []) := by
  constructor
  · intro hfail
    unfold executeAgent at hfail ⊢
    cases agentType <;>
      (dsimp only at hfail ⊢; split <;> simp_all)
  · intro hfail
    unfold executeGeneralAgent at hfail ⊢
    split at hfail <;> dsimp only at hfail ⊢
    · simp at hfail
    · rename_i e _
      refine ⟨e, rfl, rfl, ?_⟩
      simp only [str, String.toList]
      intro hnil
      have := congrArg List.length hnil
      simp [String.data_append] at this

/-- C9 witness: instantiated at a failing patent lookup (failed
`_execute_agent` response: empty content, error set) and at the failing
general agent, with the failure hypotheses discharged by evaluation. -/
theorem claim_C9_witness :
    ((executeAgent envPatentDown (str "patent expiry of it")
        .patent (defaultResult (str "patent expiry of it"))).1.success = false
      ∧ (executeAgent envPatentDown (str "patent expiry of it")
        .patent (defaultResult (str "patent expiry of it"))).1.content = [] ∧
      (executeAgent envPatentDown (str "patent expiry of it")
        .patent (defaultResult (str "patent expiry of it"))).1.error ≠ none)
    ∧ ((executeGeneralAgent envGeneralDown (str "hello")
        (defaultResult (str "hello"))).1.success = false
      ∧ ∃ e, (executeGeneralAgent envGeneralDown (str "hello")
          (defaultResult (str "hello"))).1.error = some e ∧
        (executeGeneralAgent envGeneralDown (str "hello")
          (defaultResult (str "hello"))).1.content = str ("Error: " ++ e) ∧
        (executeGeneralAgent envGeneralDown (str "hello")
          (defaultResult (str "hello"))).1.content ≠ []) :=
  ⟨⟨by decide,
    (claim_C9_failed_responses envPatentDown (str "patent expiry of it")
      .patent (defaultResult (str "patent expiry of it"))).1 (by decide)⟩,
   ⟨by decide,
    (claim_C9_failed_responses envGeneralDown (str "hello")
      .patent (defaultResult (str "hello"))).2 (by decide)⟩⟩

theorem ruleBasedClassify_agents_ne_nil {q : List Char} {i : IntentResult}
    (h : ruleBasedClassify q = some i) : i.agents_needed ≠ [] := by
  simp only [ruleBasedClassify, Option.map_eq_some'] at h
  obtain ⟨rule, hfind, rfl⟩ := h
  have hmem := List.mem_of_find?_eq_some hfind
  have hall : ∀ r ∈ classifierRules, r.agents ≠ [] := by decide
  exact hall rule hmem

theorem llmClassify_ok_agents_ne_nil {env : Env} {q : List Char}
    {ctx : List (String × String)} {res : IntentResult}
    (h : (llmClassify env q ctx).1 = .ok res) : res.agents_needed ≠ [] := by
  unfold llmClassify at h
  split at h
  · simp at h
  · simp only [Prod.fst] at h
    injection h with h
    subst h
    simp [defaultResult]
  · simp only [Prod.fst] at h
    injection h with h
    subst h
    dsimp only
    split
    · simp
    · assumption

theorem classify_agents_ne_nil (env : Env) (q : List Char)
    (ctx : List (String × String)) :
    (classify env q ctx).1.agents_needed ≠ [] := by
  unfold classify
  cases hrule : ruleBasedClassify q with
  | none =>
    simp only [hrule]
    rcases hllm : llmClassify env q ctx with ⟨fst, evs⟩
    cases fst with
    | ok res =>
      simpa using llmClassify_ok_agents_ne_nil (by rw [hllm] : (llmClassify env q ctx).1 = .ok res)
    | error e => simp [defaultResult]
  | some r =>
    simp only [hrule]
    by_cases hc : conf090 ≤ r.confidence
    · rw [if_pos hc]
      exact ruleBasedClassify_agents_ne_nil hrule
    · rw [if_neg hc]
      rcases hllm : llmClassify env q ctx with ⟨fst, evs⟩
      cases fst with
      | ok res =>
        simpa using llmClassify_ok_agents_ne_nil (by rw [hllm] : (llmClassify env q ctx).1 = .ok res)
      | error e =>
        simpa using ruleBasedClassify_agents_ne_nil hrule

theorem execute_responses_ne_nil (env : Env) (q : List Char)
    (intent : IntentResult) (h : intent.agents_needed ≠ []) :
    (executeSingle env q intent).1 ≠ [] ∧
    (executeParallel env q intent).1 ≠ [] := by
  constructor
  · unfold executeSingle
    split <;> simp
  · unfold executeParallel
    simp only [ne_eq, List.map_eq_nil_iff]
    intro hnil
    rcases hagents : intent.agents_needed with _ | ⟨a, rest⟩
    · exact h hagents
    · rw [hagents] at hnil
      simp [maxParallelAgents, List.take] at hnil

/-- C2 amended: for every query that passes validation,
`agents_used` lists exactly the successful responses (so it is empty —
not `≥ 1` — when every agent failed), the response list itself is never
empty, and on the non-synthesis path the content is the output-filtered
content of the first response — which is the *empty* string when that
agent failed, the fixed couldn't-find message being returned only for an
empty response list, which is unreachable. -/
theorem claim_C2_content_and_agents_used (env : Env) (query : List Char)
    (ctx : List (String × String)) (uid : Nat)
    (hvalid : (validateInput query).is_valid = true) :
    ∀ r, (processQuery env query ctx uid).1 = .ok r →
      r.agents_used = (r.individual_responses.filter (·.success)).map
        (fun x => x.agent_type.titleName)
      ∧ r.individual_responses ≠ []
      ∧ ((∀ x ∈ r.individual_responses, x.success = false) →
          r.agents_used = [])
      ∧ (r.was_synthesized = false →
          ∃ x rest, r.individual_responses = x :: rest ∧
            r.content = addContextWarnings (validateOutput x.content).1
              (validateInput query).sanitized_input) := by
  intro r hr
  unfold processQuery at hr
  rw [if_neg (by simp [hvalid])] at hr
  set cq := (validateInput query).sanitized_input with hcq
  dsimp only at hr
  rcases hcl : classify env cq ctx with ⟨intent, ev1⟩
  rw [hcl] at hr
  dsimp only at hr
  have hagents := classify_agents_ne_nil env cq ctx
  rw [hcl] at hagents
  simp only at hagents
  rcases hex : (if intent.requires_synthesis ∨ 1 < intent.agents_needed.length
      then executeParallel env cq intent else executeSingle env cq intent)
    with ⟨responses, ev2⟩
  rw [hex] at hr
  dsimp only at hr
  have hresp : responses ≠ [] := by
    obtain ⟨h1, h2⟩ := execute_responses_ne_nil env cq intent hagents
    by_cases hcond :
        intent.requires_synthesis = true ∨ 1 < intent.agents_needed.length
    · rw [if_pos hcond] at hex
      have hre : responses = (executeParallel env cq intent).1 := by rw [hex]
      rw [hre]
      exact h2
    · rw [if_neg hcond] at hex
      have hre : responses = (executeSingle env cq intent).1 := by rw [hex]
      rw [hre]
      exact h1
  by_cases hb : 1 < responses.length ∧ intent.requires_synthesis
  · rw [if_pos hb] at hr
    rcases hs : synthesizeResponses env cq responses intent with ⟨sres, ev3⟩
    rw [hs] at hr
    dsimp only at hr
    cases sres with
    | error e => simp at hr
    | ok out =>
      dsimp only at hr
      injection hr with hr
      subst hr
      refine ⟨rfl, hresp, ?_, ?_⟩
      · intro hall
        have : responses.filter (·.success) = [] := by
          rw [List.filter_eq_nil_iff]
          intro x hx
          simp [hall x hx]
        simp [this]
      · intro hws
        simp at hws
  · rw [if_neg hb] at hr
    rcases hrs : responses with _ | ⟨x, rest⟩
    · exact absurd hrs hresp
    · rw [hrs] at hr
      dsimp only at hr
      injection hr with hr
      subst hr
      refine ⟨rfl, by simp, ?_, ?_⟩
      · intro hall
        have : (x :: rest).filter (·.success) = [] := by
          rw [List.filter_eq_nil_iff]
          intro y hy
          simp [hall y hy]
        simp [this]
      · intro _
        exact ⟨x, rest, rfl, rfl⟩

/-- C2 counterexample: the non-empty, non-blocked, validation-passing
query `"patent expiry of it"` with a failing patent lookup yields an
`OrchestratedResponse` whose `content` is the *empty* string (not the
fixed couldn't-find message) and whose `agents_used` is *empty*. -/
theorem claim_C2_counterexample :
    (validateInput (str "patent expiry of it")).is_valid = true
    ∧ (processQuery envPatentDown (str "patent expiry of it") [] 0).1 =
      .ok ⟨[], [],
        ⟨"patent_analysis", [.patent], conf095, [], false,
         ["Check market opportunity", "Analyze competitor patents"]⟩,
        [⟨.patent, [], false, 0, none, some "db down"⟩], 0, false⟩
    ∧ ∀ r, (processQuery envPatentDown (str "patent expiry of it") [] 0).1 =
        .ok r → r.content = [] ∧ r.agents_used = [] := by
  refine ⟨by decide, by rfl, ?_⟩
  intro r hr
  have : r = ⟨[], [],
      ⟨"patent_analysis", [.patent], conf095, [], false,
       ["Check market opportunity", "Analyze competitor patents"]⟩,
      [⟨.patent, [], false, 0, none, some "db down"⟩], 0, false⟩ := by
    have h2 : (processQuery envPatentDown (str "patent expiry of it") [] 0).1 =
        .ok ⟨[], [],
          ⟨"patent_analysis", [.patent], conf095, [], false,
           ["Check market opportunity", "Analyze competitor patents"]⟩,
          [⟨.patent, [], false, 0, none, some "db down"⟩], 0, false⟩ := by
      decide
    rw [h2] at hr
    injection hr with hr
    exact hr.symm
  subst this
  exact ⟨rfl, rfl⟩

/-- C2 witness (for the amended theorem): at the same run, the response
list is the one failed patent response, `agents_used` is empty, and the
content is the filtered empty content of that first response. -/
theorem claim_C2_witness :
    ((validateInput (str "patent expiry of it")).is_valid = true)
    ∧ ∀ r, (processQuery envPatentDown (str "patent expiry of it") [] 0).1 =
        .ok r →
      r.agents_used = (r.individual_responses.filter (·.success)).map
        (fun x => x.agent_type.titleName)
      ∧ r.individual_responses ≠ []
      ∧ ((∀ x ∈ r.individual_responses, x.success = false) →
          r.agents_used = [])
      ∧ (r.was_synthesized = false →
          ∃ x rest, r.individual_responses = x :: rest ∧
            r.content = addContextWarnings (validateOutput x.content).1
              (validateInput (str "patent expiry of it")).sanitized_input) :=
  ⟨by decide,
   claim_C2_content_and_agents_used envPatentDown
     (str "patent expiry of it") [] 0 (by decide)⟩

theorem synthesizeResponses_ok (env : Env) (q : List Char)
    (rs : List AgentResponse) (intent : IntentResult)
    (hsynth : ∀ msg, ∃ out, env.synthChat msg = .ok out) :
    ∃ out, (synthesizeResponses env q rs intent).1 = .ok out := by
  unfold synthesizeResponses
  dsimp only
  rcases hf : List.filter (fun r => decide (r.success = true ∧ r.content ≠ []))
      rs with _ | ⟨r1, _ | ⟨r2, rest⟩⟩
  · rw [hf]
    exact ⟨_, rfl⟩
  · rw [hf]
    exact ⟨_, rfl⟩
  · rw [hf]
    dsimp only
    exact hsynth _

/-- C1 counterexample: `process_query` has no top-level exception
handler, so an exception raised by the synthesis LLM call escapes to the
caller.  The validation-passing query routes to the comprehensive
intent (the classifier's LLM exception *is* caught, falling back to the
rule result), four agents succeed, and the synthesis call's exception
propagates out of `process_query`. -/
theorem claim_C1_counterexample :
    (validateInput (str "Should we enter the NASH market?")).is_valid = true
    ∧ (processQuery envSynthDown
        (str "Should we enter the NASH market?") [] 0).1 =
      .error "network down" := by
  constructor
  · decide
  · decide

/-- C1 amended: exceptions inside the agent executors and the intent
classifier are caught, so `process_query` returns a well-formed
`OrchestratedResponse` for every environment whose *synthesis* chat call
does not raise; only a synthesis exception can escape (see the
counterexample). -/
theorem claim_C1_returns_unless_synthesis_raises (env : Env)
    (hsynth : ∀ msg, ∃ out, env.synthChat msg = .ok out) :
    ∀ (query : List Char) (ctx : List (String × String)) (uid : Nat),
      ∃ r, (processQuery env query ctx uid).1 = .ok r := by
  intro query ctx uid
  unfold processQuery
  by_cases hv : (validateInput query).is_valid = false
  · rw [if_pos hv]
    exact ⟨_, rfl⟩
  · rw [if_neg hv]
    dsimp only
    rcases hcl : classify env (validateInput query).sanitized_input ctx
      with ⟨intent, ev1⟩
    rcases hex : (if intent.requires_synthesis = true ∨
        1 < intent.agents_needed.length then
          executeParallel env (validateInput query).sanitized_input intent
        else executeSingle env (validateInput query).sanitized_input intent)
      with ⟨responses, ev2⟩
    dsimp only
    by_cases hb : 1 < responses.length ∧ intent.requires_synthesis = true
    · rw [if_pos hb]
      obtain ⟨out, hout⟩ := synthesizeResponses_ok env
        (validateInput query).sanitized_input responses intent hsynth
      rcases hs : synthesizeResponses env
          (validateInput query).sanitized_input responses intent
        with ⟨sres, ev3⟩
      rw [hs] at hout
      dsimp only at hout
      subst hout
      exact ⟨_, rfl⟩
    · rw [if_neg hb]
      rcases responses with _ | ⟨x, rest⟩
      · exact ⟨_, rfl⟩
      · exact ⟨_, rfl⟩

/-- C1 witness: with an environment whose synthesis call succeeds,
the comprehensive query returns a well-formed response. -/
theorem claim_C1_witness :
    (∀ msg, ∃ out, envAllOk.synthChat msg = .ok out) ∧
    ∃ r, (processQuery envAllOk
      (str "Should we enter the NASH market?") [] 0).1 = .ok r :=
  ⟨fun _ => ⟨str "Synth summary.", rfl⟩,
   claim_C1_returns_unless_synthesis_raises envAllOk
     (fun _ => ⟨str "Synth summary.", rfl⟩)
     (str "Should we enter the NASH market?") [] 0⟩

theorem llmClassify_events (env : Env) (q : List Char)
    (ctx : List (String × String)) :
    (llmClassify env q ctx).2 = [Event.llmCall] := by
  unfold llmClassify
  split <;> rfl

theorem classify_events (env : Env) (q : List Char)
    (ctx : List (String × String)) :
    ∀ e ∈ (classify env q ctx).2, e = Event.llmCall := by
  intro e he
  unfold classify at he
  have hl := llmClassify_events env q ctx
  rcases hllm : llmClassify env q ctx with ⟨res, evs⟩
  rw [hllm] at hl
  simp only at hl
  subst hl
  cases hrule : ruleBasedClassify q with
  | none =>
    rw [hrule] at he
    simp only [hllm] at he
    cases res <;> simp_all
  | some r =>
    rw [hrule] at he
    simp only [hllm] at he
    by_cases hc : conf090 ≤ r.confidence
    · rw [if_pos hc] at he
      simp at he
    · rw [if_neg hc] at he
      cases res <;> simp_all

theorem executeAgent_events (env : Env) (q : List Char) (a : AgentType)
    (intent : IntentResult) :
    ∀ e ∈ (executeAgent env q a intent).2, e = Event.llmCall := by
  intro e he
  unfold executeAgent at he
  cases a <;> (dsimp only at he; split at he <;> simp_all)

theorem executeGeneralAgent_events (env : Env) (q : List Char)
    (intent : IntentResult) :
    (executeGeneralAgent env q intent).2 = [Event.llmCall] := by
  unfold executeGeneralAgent
  split <;> rfl

theorem executeSingle_events (env : Env) (q : List Char)
    (intent : IntentResult) :
    ∀ e ∈ (executeSingle env q intent).2, e = Event.llmCall := by
  intro e he
  unfold executeSingle at he
  cases hag : intent.agents_needed with
  | nil =>
    rw [hag] at he
    have hge := executeGeneralAgent_events env q intent
    rcases h : executeGeneralAgent env q intent with ⟨r, evs⟩
    rw [h] at he hge
    simp only at he hge
    subst hge
    simpa using he
  | cons a rest =>
    rw [hag] at he
    dsimp only at he
    have hae := executeAgent_events env q a intent
    rcases h : executeAgent env q a intent with ⟨r, evs⟩
    rw [h] at he hae
    simp only at he hae
    exact hae e he

theorem executeParallel_events (env : Env) (q : List Char)
    (intent : IntentResult) :
    ∀ e ∈ (executeParallel env q intent).2, e = Event.llmCall := by
  intro e he
  unfold executeParallel at he
  simp only [List.mem_flatMap, List.mem_map] at he
  obtain ⟨pair, ⟨a, ha, rfl⟩, hmem⟩ := he
  exact executeAgent_events env q a intent e hmem

theorem synthesizeResponses_events (env : Env) (q : List Char)
    (rs : List AgentResponse) (intent : IntentResult) :
    ∀ e ∈ (synthesizeResponses env q rs intent).2, e = Event.llmCall := by
  intro e he
  unfold synthesizeResponses at he
  dsimp only at he
  rcases hf : List.filter (fun r => r.success && !decide (r.content = []))
      rs with _ | ⟨r1, _ | ⟨r2, rest⟩⟩ <;> simp_all

theorem processQuery_events (env : Env) (query : List Char)
    (ctx : List (String × String)) (uid : Nat) :
    ∀ e ∈ (processQuery env query ctx uid).2, e = Event.llmCall := by
  intro e he
  unfold processQuery at he
  by_cases hv : (validateInput query).is_valid = false
  · rw [if_pos hv] at he
    simp at he
  · rw [if_neg hv] at he
    dsimp only at he
    rcases hcl : classify env (validateInput query).sanitized_input ctx
      with ⟨intent, ev1⟩
    have hev1 := classify_events env (validateInput query).sanitized_input ctx
    rw [hcl] at he hev1
    simp only at hev1
    rcases hex : (if intent.requires_synthesis = true ∨
        1 < intent.agents_needed.length then
          executeParallel env (validateInput query).sanitized_input intent
        else executeSingle env (validateInput query).sanitized_input intent)
      with ⟨responses, ev2⟩
    rw [hex] at he
    have hev2 : ∀ e ∈ ev2, e = Event.llmCall := by
      by_cases hcond : intent.requires_synthesis = true ∨
          1 < intent.agents_needed.length
      · rw [if_pos hcond] at hex
        have := executeParallel_events env
          (validateInput query).sanitized_input intent
        rw [hex] at this
        simpa using this
      · rw [if_neg hcond] at hex
        have := executeSingle_events env
          (validateInput query).sanitized_input intent
        rw [hex] at this
        simpa using this
    dsimp only at he
    by_cases hb : 1 < responses.length ∧ intent.requires_synthesis = true
    · rw [if_pos hb] at he
      have hev3 := synthesizeResponses_events env
        (validateInput query).sanitized_input responses intent
      rcases hs : synthesizeResponses env
          (validateInput query).sanitized_input responses intent
        with ⟨sres, ev3⟩
      rw [hs] at he hev3
      simp only at hev3
      cases sres with
      | error er =>
        dsimp only at he
        rw [List.mem_append, List.mem_append] at he
        rcases he with (he | he) | he
        · exact hev1 e he
        · exact hev2 e he
        · exact hev3 e he
      | ok out =>
        dsimp only at he
        rw [List.mem_append, List.mem_append] at he
        rcases he with (he | he) | he
        · exact hev1 e he
        · exact hev2 e he
        · exact hev3 e he
    · rw [if_neg hb] at he
      rcases responses with _ | ⟨x, rest⟩ <;>
        (dsimp only at he
         rw [List.mem_append, List.mem_append] at he
         rcases he with (he | he) | he
         · exact hev1 e he
         · exact hev2 e he
         · simp at he)

/-- C4 counterexample: a run of `process_query` performs two LLM chat
calls (classifier fallback and general agent) while its event trace
contains no rate-limiter check at all — so not every LLM call is
preceded by a limiter check. -/
theorem claim_C4_counterexample :
    (processQuery envAllOk (str "tell me about stuff") [] 0).2 =
      [Event.llmCall, Event.llmCall]
    ∧ Event.limiterCheck ∉
        (processQuery envAllOk (str "tell me about stuff") [] 0).2 := by
  constructor
  · decide
  · decide

/-- C4 amended: the core never consults the rate limiter — every event
of every `process_query` trace is an LLM call and none is a limiter
check — and when the classifier's LLM call raises (as a
`RateLimitExceeded` from a gating wrapper would), `classify` falls back
to the rule-based result or the default classification instead of
failing. -/
theorem claim_C4_ungated_llm_calls :
    (∀ (env : Env) (query : List Char) (ctx : List (String × String))
        (uid : Nat),
      Event.limiterCheck ∉ (processQuery env query ctx uid).2)
    ∧ (∀ (env : Env) (query : List Char) (ctx : List (String × String)),
        (∀ q2 c2, ∃ e, env.llmClassifyCall q2 c2 = .error e) →
        (classify env query ctx).1 =
          (ruleBasedClassify query).getD (defaultResult query)) := by
  constructor
  · intro env query ctx uid hmem
    have := processQuery_events env query ctx uid Event.limiterCheck hmem
    simp at this
  · intro env query ctx herr
    unfold classify
    have hllm : ∃ e, (llmClassify env query ctx).1 = .error e := by
      obtain ⟨e, he⟩ := herr query ctx
      exact ⟨e, by unfold llmClassify; rw [he]⟩
    obtain ⟨e, he⟩ := hllm
    rcases hl : llmClassify env query ctx with ⟨res, evs⟩
    rw [hl] at he
    simp only at he
    subst he
    cases hrule : ruleBasedClassify query with
    | none => rfl
    | some r =>
      dsimp only
      by_cases hc : conf090 ≤ r.confidence
      · rw [if_pos hc]
        rfl
      · rw [if_neg hc]
        rfl

/-- C4 witness: part 1 at a concrete run, part 2 at an environment whose
classification call always raises. -/
theorem claim_C4_witness :
    (Event.limiterCheck ∉
      (processQuery envAllOk (str "latest fda approvals") [] 0).2)
    ∧ ((∀ q2 c2, ∃ e, envLLMDown.llmClassifyCall q2 c2 = .error e)
       ∧ (classify envLLMDown (str "tell me about stuff") []).1 =
         (ruleBasedClassify (str "tell me about stuff")).getD
           (defaultResult (str "tell me about stuff"))) :=
  ⟨claim_C4_ungated_llm_calls.1 envAllOk (str "latest fda approvals") [] 0,
   ⟨fun _ _ => ⟨"groq down", rfl⟩,
    claim_C4_ungated_llm_calls.2 envLLMDown (str "tell me about stuff") []
      (fun _ _ => ⟨"groq down", rfl⟩)⟩⟩

theorem getElem?_append_cons {α : Type} (pre : List α) (x : α)
    (post : List α) : (pre ++ x :: post)[pre.length]? = some x := by
  induction pre with
  | nil => simp
  | cons p pre' ih => simpa using ih

theorem set_append_cons {α : Type} (pre : List α) (x y : α)
    (post : List α) : (pre ++ x :: post).set pre.length y = pre ++ y :: post := by
  induction pre with
  | nil => rfl
  | cons p pre' ih => simp [List.set, ih]

theorem runSched_cons_none {ts : List ThreadState} {tid : Nat}
    {sched : List Nat} {c : Counters} (h : ts[tid]? = none) :
    runSched (tid :: sched) c ts = runSched sched c ts := by
  conv_lhs => unfold runSched
  rw [h]

theorem runSched_cons_some {ts : List ThreadState} {tid : Nat}
    {t : ThreadState} {sched : List Nat} {c : Counters}
    (h : ts[tid]? = some t) :
    runSched (tid :: sched) c ts =
      runSched sched (microStep c t).1 (ts.set tid (microStep c t).2) := by
  conv_lhs => unfold runSched
  rw [h]

theorem runSched_append (a b : List Nat) :
    ∀ (c : Counters) (ts : List ThreadState),
      runSched (a ++ b) c ts =
        runSched b (runSched a c ts).1 (runSched a c ts).2 := by
  induction a with
  | nil => intro c ts; rfl
  | cons t rest ih =>
    intro c ts
    rw [List.cons_append]
    cases h : ts[t]? with
    | none => rw [runSched_cons_none h, runSched_cons_none h, ih]
    | some th => rw [runSched_cons_some h, runSched_cons_some h, ih]

/-- Running the four micro-operations of one fresh `record_usage` thread
located after `pre` increments both counters once. -/
theorem runSched_one_thread (c : Counters) (pre post : List ThreadState) :
    runSched (List.replicate recordProgram.length pre.length) c
        (pre ++ freshThread :: post) =
      (⟨c.user + 1, c.global + 1⟩,
       pre ++ ThreadState.mk [] c.user c.global :: post) := by
  rw [show List.replicate recordProgram.length pre.length =
    [pre.length, pre.length, pre.length, pre.length] from rfl]
  rw [runSched_cons_some (getElem?_append_cons pre _ post), set_append_cons]
  rw [runSched_cons_some (getElem?_append_cons pre _ post), set_append_cons]
  rw [runSched_cons_some (getElem?_append_cons pre _ post), set_append_cons]
  rw [runSched_cons_some (getElem?_append_cons pre _ post), set_append_cons]
  rfl

/-- Serialized execution of `k` `record_usage` threads adds exactly `k`
to both counters, finishing every thread. -/
theorem runSched_serial (k : Nat) :
    ∀ (c : Counters) (ex : List ThreadState),
      runSched (serialSched k) c (List.replicate k freshThread ++ ex) =
        (⟨c.user + k, c.global + k⟩,
         (List.range k).map
           (fun i => ThreadState.mk [] (c.user + i) (c.global + i)) ++ ex) := by
  induction k with
  | zero => intro c ex; rfl
  | succ k ih =>
    intro c ex
    have hsched : serialSched (k + 1) =
        serialSched k ++ List.replicate recordProgram.length k := by
      unfold serialSched
      rw [List.range_succ, List.flatMap_append]
      rfl
    have hthreads : List.replicate (k + 1) freshThread ++ ex =
        List.replicate k freshThread ++ (freshThread :: ex) := by
      rw [List.replicate_succ']
      simp
    rw [hsched, hthreads, runSched_append, ih c (freshThread :: ex)]
    have hlen : k = ((List.range k).map
        (fun i => ThreadState.mk [] (c.user + i) (c.global + i))).length := by
      simp
    rw [show (List.replicate recordProgram.length k) =
      (List.replicate recordProgram.length ((List.range k).map
        (fun i => ThreadState.mk [] (c.user + i) (c.global + i))).length)
      from by rw [← hlen]]
    rw [runSched_one_thread]
    rw [List.range_succ, List.map_append]
    simp
    omega

/-- C6 counterexample: two concurrent `record_usage` calls for the same
key, interleaved read-read-write-write under the GIL's per-operation
atomicity, each run to completion, leave both counters at 1 instead
of 2: an update is lost, so the increments are not atomic. -/
theorem claim_C6_counterexample :
    runSched [0, 1, 0, 1, 0, 1, 0, 1] ⟨0, 0⟩ [freshThread, freshThread] =
      (⟨1, 1⟩, [⟨[], 0, 0⟩, ⟨[], 0, 0⟩])
    ∧ (⟨1, 1⟩ : Counters) ≠ ⟨2, 2⟩ := by
  constructor
  · decide
  · decide

/-- C6 amended: `record_usage` increments each counter by a separate
dictionary read and write with no lock, so the increment is not atomic;
`K` calls executed *without interleaving* do increase both the
user-scoped and the global counter by exactly `K`, but an interleaved
schedule can lose updates (see the counterexample). -/
theorem claim_C6_serialized_increments (k : Nat) (c : Counters) :
    (runSched (serialSched k) c (List.replicate k freshThread)).1 =
      ⟨c.user + k, c.global + k⟩ := by
  have := runSched_serial k c []
  rw [List.append_nil] at this
  rw [this]

theorem normTrunc_length_le (q : List Char) :
    (normTrunc q).length ≤ (normalizeWs q).length := by
  unfold normTrunc
  dsimp only
  split
  · simp
  · exact le_refl _

/-- C3: for every query on whose scanned text (whitespace-normalised,
truncated, lower-cased — the text `validate_input` actually scans) a
blocked pattern fires, `validate_input` returns `is_valid = false` with
the sanitized text cleared, the fixed refusal message and the
`blocked_content` flag, and `process_query` short-circuits without
running any agent: content is the refusal message, `agents_used` is
`["Guardrails"]` and `individual_responses` is empty. -/
theorem claim_C3_blocked_short_circuit (q : List Char)
    (hb : blockedREs.any
      (fun re => reSearch re (lowerS (normTrunc q))) = true) :
    validateInput q =
      ⟨false, .blocked, blockedMessage, [], ["blocked_content"]⟩
    ∧ ∀ (env : Env) (ctx : List (String × String)) (uid : Nat),
        processQuery env q ctx uid =
          (.ok ⟨blockedMessage, ["Guardrails"], blockedIntent, [], 0, false⟩,
           []) := by
  obtain ⟨re, hre, hsearch⟩ := List.any_eq_true.mp hb
  have hmin : 4 ≤ minRE re :=
    (by decide : ∀ r ∈ blockedREs, 4 ≤ minRE r) re hre
  have hlen1 := reSearch_length hsearch
  have hlen2 : 4 ≤ (normalizeWs q).length := by
    have h3 : (lowerS (normTrunc q)).length = (normTrunc q).length := by
      simp [lowerS]
    have h4 := normTrunc_length_le q
    omega
  have hq1 : ¬(q = [] ∨ strip q = []) := by
    rintro (rfl | hstrip)
    · simp [normalizeWs, splitWs, splitWsAux, joinSpace] at hlen2
    · rw [normalizeWs_nil_of_strip_nil hstrip] at hlen2
      simp at hlen2
  have part1 : validateInput q =
      ⟨false, .blocked, blockedMessage, [], ["blocked_content"]⟩ := by
    unfold validateInput
    rw [if_neg hq1]
    dsimp only
    rw [if_neg (by unfold MIN_QUERY_LENGTH; omega :
      ¬ (normalizeWs q).length < MIN_QUERY_LENGTH)]
    rw [if_pos (show blockedREs.any (fun re => reSearch re (lowerS
      (if MAX_QUERY_LENGTH < (normalizeWs q).length then
        (normalizeWs q).take MAX_QUERY_LENGTH else normalizeWs q))) = true
      from hb)]
  refine ⟨part1, ?_⟩
  intro env ctx uid
  unfold processQuery
  rw [part1]
  rfl

/-- C3 witness: the blocked query `"how to make drugs"` is refused with
the fixed message and `process_query` short-circuits. -/
theorem claim_C3_witness :
    (blockedREs.any (fun re =>
      reSearch re (lowerS (normTrunc (str "how to make drugs")))) = true)
    ∧ validateInput (str "how to make drugs") =
        ⟨false, .blocked, blockedMessage, [], ["blocked_content"]⟩
    ∧ processQuery envAllOk (str "how to make drugs") [] 0 =
        (.ok ⟨blockedMessage, ["Guardrails"], blockedIntent, [], 0, false⟩,
         []) :=
  ⟨by decide,
   (claim_C3_blocked_short_circuit (str "how to make drugs") (by decide)).1,
   (claim_C3_blocked_short_circuit (str "how to make drugs")
     (by decide)).2 envAllOk [] 0⟩

/-- The PII loop when only the email pattern fires: the text after
redaction is the email substitution and the only recorded type is
`email`. -/
theorem piiFold_email_only {s : List Char}
    (he : reSearch emailRE s = true)
    (hp : reSearch phoneRE (reSub emailRE (str "[REDACTED_EMAIL]") s) = false)
    (hs : reSearch ssnRE (reSub emailRE (str "[REDACTED_EMAIL]") s) = false)
    (hc : reSearch creditCardRE
      (reSub emailRE (str "[REDACTED_EMAIL]") s) = false)
    (hpa : reSearch patientIdRE
      (reSub emailRE (str "[REDACTED_EMAIL]") s) = false) :
    piiFold piiPatterns s [] =
      (reSub emailRE (str "[REDACTED_EMAIL]") s, ["email"]) := by
  have e1 : str "[REDACTED_" ++ upperS (str "email") ++ str "]" =
      str "[REDACTED_EMAIL]" := by decide
  simp only [piiPatterns, piiFold]
  rw [if_pos he, e1]
  rw [if_neg (by simp [hp]), if_neg (by simp [hs]), if_neg (by simp [hc]),
    if_neg (by simp [hpa])]
  simp

theorem injFold_no_hits :
    ∀ (lst : List RE) (s : List Char) (fl : List String) (rk : RiskLevel),
      (∀ re ∈ lst, reSearch re s = false) →
      injFold lst (s, fl, rk) = (s, fl, rk) := by
  intro lst
  induction lst with
  | nil => intro s fl rk _; rfl
  | cons re rest ih =>
    intro s fl rk h
    unfold injFold
    rw [if_neg (by simp [h re (by simp)])]
    exact ih s fl rk (fun r hr => h r (by simp [hr]))

/-- `validate_input` on the email-only PII path: when the email pattern
fires on the scanned text of a non-blocked query and no other PII or
injection pattern fires on the redacted text, the result is valid with
the email-substituted text, the pii message, the `pii_email` flag and
the risk pipeline value. -/
theorem validateInput_email_path (q : List Char)
    (hemail : reSearch emailRE (normTrunc q) = true)
    (hnoblock : blockedREs.any
      (fun re => reSearch re (lowerS (normTrunc q))) = false)
    (hp : reSearch phoneRE
      (reSub emailRE (str "[REDACTED_EMAIL]") (normTrunc q)) = false)
    (hs : reSearch ssnRE
      (reSub emailRE (str "[REDACTED_EMAIL]") (normTrunc q)) = false)
    (hc : reSearch creditCardRE
      (reSub emailRE (str "[REDACTED_EMAIL]") (normTrunc q)) = false)
    (hpa : reSearch patientIdRE
      (reSub emailRE (str "[REDACTED_EMAIL]") (normTrunc q)) = false)
    (hinj : ∀ re ∈ injectionREs, reSearch re
      (reSub emailRE (str "[REDACTED_EMAIL]") (normTrunc q)) = false) :
    validateInput q =
      ⟨true,
       (if (["email"] : List String) ≠ [] ∧
           ((if 0 < (sensitiveREs.filter (fun re =>
                 reSearch re (lowerS (normTrunc q)))).length ∧
               (if MAX_QUERY_LENGTH < (normalizeWs q).length then
                 RiskLevel.low else RiskLevel.safe) = RiskLevel.safe then
              RiskLevel.medium
            else if MAX_QUERY_LENGTH < (normalizeWs q).length then
              RiskLevel.low else RiskLevel.safe) = RiskLevel.safe ∨
            (if 0 < (sensitiveREs.filter (fun re =>
                 reSearch re (lowerS (normTrunc q)))).length ∧
               (if MAX_QUERY_LENGTH < (normalizeWs q).length then
                 RiskLevel.low else RiskLevel.safe) = RiskLevel.safe then
              RiskLevel.medium
            else if MAX_QUERY_LENGTH < (normalizeWs q).length then
              RiskLevel.low else RiskLevel.safe) = RiskLevel.low) then
          RiskLevel.medium
        else if 0 < (sensitiveREs.filter (fun re =>
              reSearch re (lowerS (normTrunc q)))).length ∧
            (if MAX_QUERY_LENGTH < (normalizeWs q).length then
              RiskLevel.low else RiskLevel.safe) = RiskLevel.safe then
          RiskLevel.medium
        else if MAX_QUERY_LENGTH < (normalizeWs q).length then
          RiskLevel.low else RiskLevel.safe),
       str "Personal information has been redacted for privacy.",
       reSub emailRE (str "[REDACTED_EMAIL]") (normTrunc q),
       ((if MAX_QUERY_LENGTH < (normalizeWs q).length then
           ["truncated"] else []) ++
        List.replicate ((sensitiveREs.filter
          (fun re => reSearch re (lowerS (normTrunc q)))).length)
          "sensitive_content") ++
       List.map (fun p => "pii_" ++ p) ["email"]⟩ := by
  have hlen1 := reSearch_length hemail
  have hmin : minRE emailRE = 6 := by decide
  have hlen2 : 6 ≤ (normalizeWs q).length := by
    rw [hmin] at hlen1
    have h4 := normTrunc_length_le q
    omega
  have hq1 : ¬(q = [] ∨ strip q = []) := by
    rintro (rfl | hstrip)
    · simp [normalizeWs, splitWs, splitWsAux, joinSpace] at hlen2
    · rw [normalizeWs_nil_of_strip_nil hstrip] at hlen2
      simp at hlen2
  have hT : (if MAX_QUERY_LENGTH < (normalizeWs q).length then
      (normalizeWs q).take MAX_QUERY_LENGTH else normalizeWs q) =
      normTrunc q := rfl
  unfold validateInput
  rw [if_neg hq1]
  dsimp only
  rw [if_neg (show ¬ (normalizeWs q).length < MIN_QUERY_LENGTH by
    unfold MIN_QUERY_LENGTH; omega)]
  rw [hT]
  rw [if_neg (show ¬ (blockedREs.any
    (fun re => reSearch re (lowerS (normTrunc q))) = true) from by
    simp [hnoblock])]
  rw [piiFold_email_only hemail hp hs hc hpa]
  dsimp only
  rw [injFold_no_hits injectionREs _ _ _ hinj]
  dsimp only
  rw [if_pos (show (((if MAX_QUERY_LENGTH < (normalizeWs q).length then
      ["truncated"] else []) ++
    List.replicate ((sensitiveREs.filter (fun re =>
      reSearch re (lowerS (normTrunc q)))).length) "sensitive_content") ++
    List.map (fun p => ("pii_" ++ p : String)) ["email"]).any
      (fun f => startsWith (str "pii_") (str f)) = true from by
    rw [List.any_append]
    rw [show (List.map (fun p => ("pii_" ++ p : String)) ["email"]).any
      (fun f => startsWith (str "pii_") (str f)) = true from by decide]
    rw [Bool.or_true])]

set_option maxRecDepth 100000 in
/-- C7 counterexample: in `"a@b.cc xa@b.cc1"` the email pattern matches
`"a@b.cc"` (offset 0, length 6) and `validate_input` redacts that match,
yet the second, boundary-less occurrence embedded in `"xa@b.cc1"`
survives, so the sanitized text still contains the detected email
verbatim. -/
theorem claim_C7_counterexample :
    findFrom emailRE none (normTrunc (str "a@b.cc xa@b.cc1")) 0 = some (0, 6)
    ∧ (normTrunc (str "a@b.cc xa@b.cc1")).take 6 = str "a@b.cc"
    ∧ validateInput (str "a@b.cc xa@b.cc1") =
        ⟨true, .medium,
         str "Personal information has been redacted for privacy.",
         str "[REDACTED_EMAIL] xa@b.cc1", ["pii_email"]⟩
    ∧ containsSub (str "a@b.cc")
        (validateInput (str "a@b.cc xa@b.cc1")).sanitized_input = true := by
  have hred : reSub emailRE (str "[REDACTED_EMAIL]")
      (normTrunc (str "a@b.cc xa@b.cc1")) =
      str "[REDACTED_EMAIL] xa@b.cc1" := by
    rw [reSub_eq_fuel]
    decide
  have h3 : validateInput (str "a@b.cc xa@b.cc1") =
      ⟨true, .medium,
       str "Personal information has been redacted for privacy.",
       str "[REDACTED_EMAIL] xa@b.cc1", ["pii_email"]⟩ := by
    rw [validateInput_email_path (str "a@b.cc xa@b.cc1")
      (by decide) (by decide)
      (by rw [hred]; decide) (by rw [hred]; decide) (by rw [hred]; decide)
      (by rw [hred]; decide) (by rw [hred]; decide)]
    rw [hred]
    decide
  refine ⟨by decide, by decide, h3, ?_⟩
  rw [h3]
  decide

/-- C7 amended: whenever the email pattern fires on the scanned text of
a non-blocked query, every *match* of the pattern is substituted (the
sanitized text is exactly the email-substituted text when no other PII
or injection pattern fires on it), the sanitized text contains
`[REDACTED_EMAIL]`, the flag `pii_email` is recorded and the risk level
is raised to at least medium; an occurrence of the matched email that
the pattern does *not* match (no word boundary) may survive verbatim
(see the counterexample). -/
theorem claim_C7_email_redaction (q : List Char)
    (hemail : reSearch emailRE (normTrunc q) = true)
    (hnoblock : blockedREs.any
      (fun re => reSearch re (lowerS (normTrunc q))) = false)
    (hp : reSearch phoneRE
      (reSub emailRE (str "[REDACTED_EMAIL]") (normTrunc q)) = false)
    (hs : reSearch ssnRE
      (reSub emailRE (str "[REDACTED_EMAIL]") (normTrunc q)) = false)
    (hc : reSearch creditCardRE
      (reSub emailRE (str "[REDACTED_EMAIL]") (normTrunc q)) = false)
    (hpa : reSearch patientIdRE
      (reSub emailRE (str "[REDACTED_EMAIL]") (normTrunc q)) = false)
    (hinj : ∀ re ∈ injectionREs, reSearch re
      (reSub emailRE (str "[REDACTED_EMAIL]") (normTrunc q)) = false) :
    (validateInput q).is_valid = true
    ∧ (validateInput q).sanitized_input =
        reSub emailRE (str "[REDACTED_EMAIL]") (normTrunc q)
    ∧ containsSub (str "[REDACTED_EMAIL]")
        (validateInput q).sanitized_input = true
    ∧ "pii_email" ∈ (validateInput q).flags
    ∧ ((validateInput q).risk_level = .medium ∨
       (validateInput q).risk_level = .high) := by
  rw [validateInput_email_path q hemail hnoblock hp hs hc hpa hinj]
  refine ⟨rfl, rfl, reSub_contains_repl (by decide) hemail, ?_, ?_⟩
  · exact List.mem_append.mpr (Or.inr (by decide))
  · by_cases h1 : MAX_QUERY_LENGTH < (normalizeWs q).length <;>
      by_cases h2 : 0 < (sensitiveREs.filter (fun re =>
        reSearch re (lowerS (normTrunc q)))).length <;>
      simp [h1, h2]

set_option maxRecDepth 100000 in
/-- C7 witness: for the query `"contact a@b.cc please"` only the email
pattern fires, the email is redacted and the pii flag and medium risk
are set. -/
theorem claim_C7_witness :
    (validateInput (str "contact a@b.cc please")).is_valid = true
    ∧ (validateInput (str "contact a@b.cc please")).sanitized_input =
        reSub emailRE (str "[REDACTED_EMAIL]")
          (normTrunc (str "contact a@b.cc please"))
    ∧ containsSub (str "[REDACTED_EMAIL]")
        (validateInput (str "contact a@b.cc please")).sanitized_input = true
    ∧ "pii_email" ∈ (validateInput (str "contact a@b.cc please")).flags
    ∧ ((validateInput (str "contact a@b.cc please")).risk_level = .medium ∨
       (validateInput (str "contact a@b.cc please")).risk_level = .high) := by
  have hred : reSub emailRE (str "[REDACTED_EMAIL]")
      (normTrunc (str "contact a@b.cc please")) =
      str "contact [REDACTED_EMAIL] please" := by
    rw [reSub_eq_fuel]
    decide
  exact claim_C7_email_redaction (str "contact a@b.cc please")
    (by decide) (by decide)
    (by rw [hred]; decide) (by rw [hred]; decide) (by rw [hred]; decide)
    (by rw [hred]; decide) (by rw [hred]; decide)

end Pharma
